import Mathlib

/-!
# Verification of the closey-lang x86 backend core

Shallow embedding of `src/backends/ir.rs` (IR lowering, lifetime analysis)
and `src/backends/x86/codegen.rs` (native code emission and relocation),
together with theorems settling the specification claims.

Rust panics (`todo!()`, `unwrap()` failure, out-of-bounds indexing) are
modelled as `none` in an `Option` codomain; the Rust functions themselves
have no error channel in their return types.
-/

namespace Closey

/-! ## Frontend data model

The file `src/frontend/ir.rs` is not present in the sources; only its
consumers are.  The types below are therefore modelled from the spec. -/

/-- Modelled from the spec: metadata attached to every frontend expression
node.  The backend lowering only reads the `arity` annotation (the residual
arity expected at an application layer; the declared arity on a callee). -/
structure SExprMetadata where
  arity : Nat
deriving DecidableEq

/-- Modelled from the spec: the frontend expression type `SExpr` from the
missing `src/frontend/ir.rs`, with exactly the variants the backend lowering
matches on (`src/backends/ir.rs` lines 116-199).  Payloads of the variants
the lowering rejects are irrelevant to it and kept minimal. -/
inductive SExpr where
  | Empty (m : SExprMetadata)
  | TypeAlias (m : SExprMetadata) (name : String)
  | Symbol (m : SExprMetadata) (s : String)
  | Function (m : SExprMetadata) (f : String)
  | ExternalFunc (m : SExprMetadata) (name : String) (argc : Nat)
  | Chain (m : SExprMetadata) (e1 : SExpr) (e2 : SExpr)
  | Application (m : SExprMetadata) (f : SExpr) (a : SExpr)
  | Assign (m : SExprMetadata) (name : String) (value : SExpr)
  | With (m : SExprMetadata) (body : SExpr)
  | Match (m : SExprMetadata) (value : SExpr)
deriving DecidableEq

/-- `SExpr::get_metadata` of the frontend. -/
def SExpr.get_metadata : SExpr → SExprMetadata
  | .Empty m => m
  | .TypeAlias m _ => m
  | .Symbol m _ => m
  | .Function m _ => m
  | .ExternalFunc m _ _ => m
  | .Chain m _ _ => m
  | .Application m _ _ => m
  | .Assign m _ _ => m
  | .With m _ => m
  | .Match m _ => m

/-- Modelled from the spec: a closure-converted frontend function
(`ir::IrFunction` of the missing `src/frontend/ir.rs`): a name, the ordered
declared-argument names (`args`, whose second tuple components - types - the
backend ignores), the captured variables (`captured`, used only for its
length) and their ordered names (`captured_names`), and a body expression. -/
structure FrontendFunction where
  name : String
  args : List String
  captured : List String
  captured_names : List String
  body : SExpr

/-- Modelled from the spec: the frontend module.  The backend iterates the
map of functions and uses only the values; iteration order is fixed here as
list order. -/
structure FrontendModule where
  funcs : List FrontendFunction

/-! ## Backend IR data model (`src/backends/ir.rs` lines 6-104) -/

/-- `IrInstruction` (ir.rs lines 6-12).  `Call known_arity` is the
known/unknown-arity call; `Apply` is partial application. -/
inductive IrInstruction where
  | Ret
  | Load
  | Apply
  | Call (known_arity : Bool)
deriving DecidableEq

/-- `IrArgument` (ir.rs lines 26-31): a previously produced value, a
function parameter, or a named top-level function. -/
inductive IrArgument where
  | Local (n : Nat)
  | Argument (n : Nat)
  | Function (s : String)
deriving DecidableEq

/-- `IrSsa` (ir.rs lines 44-50). -/
structure IrSsa where
  local_id : Option Nat
  local_lifetime : Nat
  local_register : Nat
  instr : IrInstruction
  args : List IrArgument
deriving DecidableEq

/-- `IrFunction` (ir.rs lines 66-70). -/
structure IrFunction where
  name : String
  argc : Nat
  ssas : List IrSsa
deriving DecidableEq

/-- `IrFunction::get_last_local` (ir.rs lines 83-90): the local of the last
ssa that has one, scanning from the back. -/
def IrFunction.get_last_local (f : IrFunction) : Option Nat :=
  go f.ssas.reverse
where
  go : List IrSsa → Option Nat
    | [] => none
    | ssa :: rest => match ssa.local_id with
      | some l => some l
      | none => go rest

/-- `IrFunction::get_next_local` (ir.rs lines 92-99). -/
def IrFunction.get_next_local (f : IrFunction) : Nat :=
  go f.ssas.reverse
where
  go : List IrSsa → Nat
    | [] => 0
    | ssa :: rest => match ssa.local_id with
      | some l => l + 1
      | none => go rest

/-- `IrModule` (ir.rs lines 102-104). -/
structure IrModule where
  funcs : List IrFunction
deriving DecidableEq

/-! ## The bound-name-to-parameter-index map (ir.rs line 240)

The Rust code builds `HashMap<String, usize>` by collecting
`captured_names.enumerate().chain(args.map(|v| v.0).enumerate())` with
name as key; a `collect` into a `HashMap` lets later pairs overwrite
earlier ones. -/

/-- The pair list `captured_names.enumerate().chain(args.enumerate())`
mapped to (name, index), in insertion order (ir.rs line 240).  Note both
`enumerate()` calls start from 0. -/
def build_args_map (captured_names args : List String) : List (String × Nat) :=
  (captured_names.enum ++ args.enum).map (fun p => (p.2, p.1))

/-- `HashMap` lookup for a map built by `collect`: the last inserted
binding for a key wins. -/
def args_map_get (m : List (String × Nat)) (k : String) : Option Nat :=
  m.foldl (fun acc p => if p.1 = k then some p.2 else acc) none

/-! ## IR lowering (`conversion_helper`, ir.rs lines 115-199)

The Rust function recurses on the expression; the `Application` arm
flattens the chain of applications into an explicit stack and loops over
it (innermost layer first).  Here the loop over the left spine is
expressed as structural recursion over that spine (`lower_callee`), which
processes the layers in exactly the loop's pop order.  The loop state is
`(func, f, args, last_arity)`: the function being filled, the local
holding the current callee, the pending argument locals, and the arity
recorded at the previously processed layer (initially the base callee's
declared arity, ir.rs line 159).  `none` models a `todo!()` panic or a
failed `unwrap()`. -/

/-- Appends an ssa to the function under construction (`func.ssas.push`). -/
def IrFunction.push_ssa (f : IrFunction) (s : IrSsa) : IrFunction :=
  { f with ssas := f.ssas ++ [s] }

/-- The non-`Application` arms of `conversion_helper` (ir.rs lines
117-149, 196-198); none of them recurse.  `Symbol` loads a parameter when
the name is bound (ir.rs lines 120-134), `Function` loads a named function
(lines 136-146); every other shape is a `todo!()` panic, modelled `none`. -/
def lower_atom (args_map : List (String × Nat)) (func : IrFunction) :
    SExpr → Option (IrFunction × Option Nat)
  | .Empty _ => none
  | .TypeAlias _ _ => none
  | .Symbol _ s =>
    match args_map_get args_map s with
    | some a =>
      let l := func.get_next_local
      some (func.push_ssa ⟨some l, 0, 0, .Load, [.Argument a]⟩, some l)
    | none => none
  | .Function _ f =>
    let l := func.get_next_local
    some (func.push_ssa ⟨some l, 0, 0, .Load, [.Function f]⟩, some l)
  | .ExternalFunc _ _ _ => none
  | .Chain _ _ _ => none
  | .Application _ _ _ => none
  | .Assign _ _ _ => none
  | .With _ _ => none
  | .Match _ _ => none

mutual

/-- `conversion_helper` (ir.rs lines 115-199): lowers one expression,
returning the updated function and the produced local (the Rust return
value `Option<usize>`).  The outer `Option` models panics. -/
def conversion_helper (args_map : List (String × Nat)) (func : IrFunction) :
    SExpr → Option (IrFunction × Option Nat)
  | .Application m f a => do
    -- the while-let loop over the flattened application stack, ir.rs 151-179
    let (func, fl, args, _la) ← lower_chain_step args_map func m f a
    if m.arity = 0 then
      -- the last loop iteration emitted the Call; `local` is its local
      pure (func, some fl)
    else
      -- ir.rs lines 181-191: leftover arguments become an Apply
      let l := func.get_next_local
      pure (func.push_ssa
        ⟨some l, 0, 0, .Apply, .Local fl :: args.map .Local⟩, some l)
  | e => lower_atom args_map func e
termination_by e => 2 * sizeOf e

/-- The callee position of an application chain: processes every layer of
the left spine below the current node, returning the loop state
`(func, f, args, last_arity)` of ir.rs lines 159-179 after those layers. -/
def lower_callee (args_map : List (String × Nat)) (func : IrFunction) :
    SExpr → Option (IrFunction × Nat × List Nat × Nat)
  | .Application m f a => lower_chain_step args_map func m f a
  | e => do
    -- base of the chain: lower the callee expression and record its
    -- declared arity (ir.rs lines 159-160); `.unwrap()` on the local
    let (func, l) ← lower_atom args_map func e
    let l ← l
    pure (func, l, [], e.get_metadata.arity)
termination_by e => 2 * sizeOf e

/-- One iteration of the loop of ir.rs lines 163-179 for the layer
`Application m f a`: process the layers below `f` first, lower the
argument `a` (`.unwrap()`), push its local onto the pending list, and
when this layer's recorded arity is 0 emit
`Call(last_arity != 0)` consuming the callee and pending arguments. -/
def lower_chain_step (args_map : List (String × Nat)) (func : IrFunction)
    (m : SExprMetadata) (f a : SExpr) :
    Option (IrFunction × Nat × List Nat × Nat) := do
  let (func, fl, args, la) ← lower_callee args_map func f
  let (func, al) ← conversion_helper args_map func a
  let al ← al
  let args := args ++ [al]
  if m.arity = 0 then
    let l := func.get_next_local
    let func := func.push_ssa
      ⟨some l, 0, 0, .Call (la ≠ 0), .Local fl :: args.map .Local⟩
    pure (func, l, [], m.arity)
  else
    pure (func, fl, args, m.arity)
termination_by 2 * sizeOf f + 2 * sizeOf a + 1

end

/-! ## Lifetime analysis (`calculate_lifetimes`, ir.rs lines 202-227) -/

/-- Whether an ssa references local `l` as an operand (the inner loop of
ir.rs lines 213-220). -/
def refs_local (s : IrSsa) (l : Nat) : Bool :=
  s.args.any (fun a => a = .Local l)

/-- The inner scan of ir.rs lines 211-223: walk the instructions after the
producer, with `j` starting at `i + 1`, overwriting the lifetime with
`j - i + 1` at every instruction that references the local; the last
reference wins. -/
def lifetime_scan (l : Nat) (i : Nat) (j : Nat) (cur : Nat) :
    List IrSsa → Nat
  | [] => cur
  | next :: rest =>
    let cur := if refs_local next l then j - i + 1 else cur
    lifetime_scan l i (j + 1) cur rest

/-- The outer loop of `calculate_lifetimes` (ir.rs lines 202-227).  Note
the Rust loop `continue`s without incrementing `i` on instructions that
produce no value; only the difference `j - i` matters. -/
def calculate_lifetimes_go (i : Nat) : List IrSsa → List IrSsa
  | [] => []
  | ssa :: rest =>
    match ssa.local_id with
    | none => ssa :: calculate_lifetimes_go i rest
    | some l =>
      { ssa with
        local_lifetime := lifetime_scan l i (i + 1) ssa.local_lifetime rest }
        :: calculate_lifetimes_go (i + 1) rest

/-- `calculate_lifetimes` (ir.rs lines 202-227). -/
def calculate_lifetimes (f : IrFunction) : IrFunction :=
  { f with ssas := calculate_lifetimes_go 0 f.ssas }

/-! ## `convert_frontend_ir_to_backend_ir` (ir.rs lines 231-261) -/

/-- Lowers one frontend function: build the args map (ir.rs line 240),
lower the body, append the `Ret` referencing `get_last_local` (lines
243-253), and run lifetime analysis. -/
def convert_function (func : FrontendFunction) : Option IrFunction := do
  let f : IrFunction :=
    { name := func.name
      argc := func.args.length + func.captured.length
      ssas := [] }
  let args_map := build_args_map func.captured_names func.args
  let (f, _) ← conversion_helper args_map f func.body
  let f := f.push_ssa
    ⟨none, 0, 0, .Ret,
      match f.get_last_local with
      | some l => [.Local l]
      | none => []⟩
  pure (calculate_lifetimes f)

/-- The per-function loop of ir.rs lines 234-258, in order; a panic on
any function aborts the whole run. -/
def convert_functions : List FrontendFunction → Option (List IrFunction)
  | [] => some []
  | f :: rest => do
    let f2 ← convert_function f
    let rest2 ← convert_functions rest
    pure (f2 :: rest2)

/-- `convert_frontend_ir_to_backend_ir` (ir.rs lines 231-261).  A panic
while lowering any function aborts the whole conversion (`none`): the Rust
code has no error channel and `todo!()` takes down the process. -/
def convert_frontend_ir_to_backend_ir (module : FrontendModule) :
    Option IrModule := do
  pure ⟨← convert_functions module.funcs⟩

/-! ## x86 code generation data model (`src/backends/x86/codegen.rs`)

Byte buffers are lists of `Nat` (each entry a byte value); machine
integers wrap explicitly via `% 2 ^ 32` / `% 2 ^ 64`. -/

/-- `InstructionRegister` (codegen.rs lines 10-15). -/
inductive InstructionRegister where
  | Bit32 (r : Nat)
  | Bit64 (r : Nat)
  | Spilled (n : Nat)
  | Arg (n : Nat)
deriving DecidableEq

/-- `InstructionRegister::is_register` (codegen.rs lines 18-24). -/
def InstructionRegister.is_register : InstructionRegister → Bool
  | .Bit32 _ | .Bit64 _ => true
  | .Spilled _ | .Arg _ => false

/-- `InstructionRegister::is_64_bit` (codegen.rs lines 26-32), a `u8`. -/
def InstructionRegister.is_64_bit : InstructionRegister → Nat
  | .Bit64 _ => 1
  | _ => 0

/-- `InstructionRegister::get_register` (codegen.rs lines 34-41).  Rust
panics on `Spilled`/`Arg`; every call site below is guarded by an
`is_register` check or by construction, exactly as in the source, so the
junk value of the non-register arms is never observable. -/
def InstructionRegister.get_register : InstructionRegister → Nat
  | .Bit32 r | .Bit64 r => r
  | _ => 0

/-- `InstructionRegister::get_offset` (codegen.rs lines 43-49); Rust
panics on the register arms, which no embedded call site reaches. -/
def InstructionRegister.get_offset : InstructionRegister → Nat
  | .Spilled v | .Arg v => v
  | _ => 0

/-- `Register` (codegen.rs lines 52-73). -/
inductive Register where
  | Rax | Rcx | Rdx | Rbx | Rsp | Rbp | Rsi | Rdi
  | R8 | R9 | R10 | R11 | R12 | R13 | R14 | R15
  | Spilled (n : Nat)
  | Arg (n : Nat)
deriving DecidableEq

/-- `Register::convert_arg_register_id` (codegen.rs lines 76-88);
`ARG_REGISTER_COUNT = 6`. -/
def Register.convert_arg_register_id (id : Nat) : Register :=
  match id with
  | 0 => .Rdi
  | 1 => .Rsi
  | 2 => .Rdx
  | 3 => .Rcx
  | 4 => .R8
  | 5 => .R9
  | _ => .Arg (id - 6)

/-- `Register::convert_nonarg_register_id` (codegen.rs lines 90-104);
`NONARG_REGISTER_COUNT = 8`. -/
def Register.convert_nonarg_register_id (id : Nat) : Register :=
  match id with
  | 0 => .Rbx
  | 1 => .Rdx
  | 2 => .R10
  | 3 => .R11
  | 4 => .R12
  | 5 => .R13
  | 6 => .R14
  | 7 => .R15
  | _ => .Spilled (id - 8)

/-- `Register::revert_to_nonarg_register_id` (codegen.rs lines 106-121);
`none` models the panic arm. -/
def Register.revert_to_nonarg_register_id : Register → Option Nat
  | .Rbx => some 0
  | .Rdx => some 1
  | .R10 => some 2
  | .R11 => some 3
  | .R12 => some 4
  | .R13 => some 5
  | .R14 => some 6
  | .R15 => some 7
  | .Spilled id => some (id + 8)
  | _ => none

/-- `Register::is_callee_saved` (codegen.rs lines 123-126). -/
def Register.is_callee_saved : Register → Bool
  | .Rbx | .Rsp | .Rbp | .R12 | .R13 | .R14 | .R15 => true
  | _ => false

/-- `Register::convert_to_instr_arg` (codegen.rs lines 128-152). -/
def Register.convert_to_instr_arg : Register → InstructionRegister
  | .Rax => .Bit32 0
  | .Rcx => .Bit32 1
  | .Rdx => .Bit32 2
  | .Rbx => .Bit32 3
  | .Rsp => .Bit32 4
  | .Rbp => .Bit32 5
  | .Rsi => .Bit32 6
  | .Rdi => .Bit32 7
  | .R8 => .Bit64 0
  | .R9 => .Bit64 1
  | .R10 => .Bit64 2
  | .R11 => .Bit64 3
  | .R12 => .Bit64 4
  | .R13 => .Bit64 5
  | .R14 => .Bit64 6
  | .R15 => .Bit64 7
  | .Spilled s => .Spilled s
  | .Arg s => .Arg s

/-- `GeneratedCode` (codegen.rs lines 155-160): the function-address table
(name to byte range as start and end offsets), the recorded references
(buffer offset to target name and is-relative flag), and the byte buffer.
The two `HashMap`s are modelled as association lists in insertion order. -/
structure GeneratedCode where
  func_addrs : List (String × Nat × Nat)
  func_refs : List (Nat × String × Bool)
  data : List Nat
deriving DecidableEq

/-- `HashMap::get` on the address table. -/
def addr_lookup (l : List (String × Nat × Nat)) (k : String) :
    Option (Nat × Nat) :=
  (l.find? (fun p => p.1 == k)).map (fun p => p.2)

/-- `HashMap::insert` on the address table: overwrite or append. -/
def addrs_insert (l : List (String × Nat × Nat)) (k : String)
    (v : Nat × Nat) : List (String × Nat × Nat) :=
  if l.any (fun p => p.1 == k) then
    l.map (fun p => if p.1 == k then (k, v) else p)
  else l ++ [(k, v)]

/-- `code.func_addrs.get_mut(name).unwrap().end = len` (codegen.rs line
639); `none` models the `unwrap` panic when the name is absent. -/
def addrs_set_end (l : List (String × Nat × Nat)) (k : String) (e : Nat) :
    Option (List (String × Nat × Nat)) :=
  if l.any (fun p => p.1 == k) then
    some (l.map (fun p => if p.1 == k then (p.1, p.2.1, e) else p))
  else none

/-! ## Relocation (`GeneratedCode::relocate`, codegen.rs lines 183-201) -/

/-- Interpret an integer as a wrapped 32-bit value (`as u32` / wrapping
`i32` arithmetic, exact modulo `2 ^ 32`). -/
def as_u32 (x : Int) : Nat := (x.emod (2 ^ 32)).toNat

/-- The patch loop of codegen.rs lines 192-198: overwrite the bytes of the
suffix with the little-endian bytes `(addr >> (i * 8)) & 0xff`, stopping
at `byte_count` or at the end of the buffer. -/
def write_loop : List Nat → Nat → Nat → Nat → List Nat
  | [], _, _, _ => []
  | b :: rest, i, addr, byte_count =>
    if byte_count ≤ i then b :: rest
    else ((addr >>> (i * 8)) &&& 0xff) :: write_loop rest (i + 1) addr byte_count

/-- `self.data.iter_mut().skip(code_addr)` followed by the patch loop. -/
def patch_at (data : List Nat) (off addr byte_count : Nat) : List Nat :=
  data.take off ++ write_loop (data.drop off) 0 addr byte_count

/-- One iteration of the relocation loop (codegen.rs lines 184-199): a
reference whose target is absent from the address table is skipped
silently.  A relative reference patches 4 bytes with the wrapped 32-bit
value `target_start - ref_offset - 4` (the Rust `i32` difference is cast
to `u64` with sign extension, but only its low 4 bytes are ever written,
and those equal this value modulo `2 ^ 32`); an absolute reference patches
8 bytes with the wrapping `u64` sum `base + target_start`. -/
def apply_ref (func_addrs : List (String × Nat × Nat)) (base : Nat)
    (data : List Nat) (r : Nat × String × Bool) : List Nat :=
  match addr_lookup func_addrs r.2.1 with
  | none => data
  | some range =>
    let ab : Nat × Nat :=
      if r.2.2 then (as_u32 ((range.1 : Int) - (r.1 : Int) - 4), 4)
      else ((base + range.1) % 2 ^ 64, 8)
    patch_at data r.1 ab.1 ab.2

/-- `GeneratedCode::relocate` (codegen.rs lines 183-201), iterating the
recorded references in insertion order. -/
def relocate (base : Nat) (code : GeneratedCode) : GeneratedCode :=
  { code with data := code.func_refs.foldl (apply_ref code.func_addrs base) code.data }

/-! ## Native code emission (`generate_code`, codegen.rs lines 252-643) -/

/-- Little-endian byte pushes `(v >> (i * 8)) & 0xff` for `i < n`. -/
def le_bytes (n v : Nat) : List Nat :=
  (List.range n).map (fun i => (v >>> (i * 8)) &&& 0xff)

/-- The callee-saved register scan of codegen.rs lines 301-306: the set of
pool-register ids used by value-producing instructions whose assigned
register is callee-saved, in first-insertion order.  The Rust `HashSet`
iterates in an unspecified but fixed order; both the prologue loop (lines
309-315) and the epilogue loop (lines 374-380) iterate the same set in
that same order, which is modelled here as this list's order. -/
def used_registers (ssas : List IrSsa) : List Nat :=
  ssas.foldl (fun acc ssa =>
    if ssa.local_id.isSome
        && (Register.convert_nonarg_register_id ssa.local_register).is_callee_saved
        && !(acc.contains ssa.local_register)
    then acc ++ [ssa.local_register] else acc) []

/-- The prologue push loop (codegen.rs lines 309-315): for each used
register, in order, `push reg` (REX prefix `0x41` for the 64-bit-encoded
registers). -/
def emit_push_used (used : List Nat) : List Nat :=
  used.foldl (fun acc r =>
    let reg := (Register.convert_nonarg_register_id r).convert_to_instr_arg
    acc ++ (if reg.is_64_bit ≠ 0 then [0x41] else []) ++ [0x50 ||| reg.get_register]) []

/-- The epilogue pop loop (codegen.rs lines 374-380): for each used
register, iterated in the same order as the prologue push loop (the
source has no `.rev()`), `pop reg`. -/
def emit_pop_used (used : List Nat) : List Nat :=
  used.foldl (fun acc r =>
    let reg := (Register.convert_nonarg_register_id r).convert_to_instr_arg
    acc ++ (if reg.is_64_bit ≠ 0 then [0x41] else []) ++ [0x58 ||| reg.get_register]) []

/-- The argument-register push loop before a call (codegen.rs lines
487-498): `i` ranges over `args.iter().skip(1).zip(0..func.argc)` (so `n`
is the minimum of the argument count and `argc`), breaking at the first
non-register slot. -/
def push_arg_registers (n : Nat) : List Nat := go 0 n
where
  go (i left : Nat) : List Nat :=
    match left with
    | 0 => []
    | left' + 1 =>
      let reg := (Register.convert_arg_register_id i).convert_to_instr_arg
      if reg.is_register then
        (if reg.is_64_bit ≠ 0 then [0x41] else []) ++ [0x50 ||| reg.get_register]
          ++ go (i + 1) left'
      else []

/-- The argument-register pop loop after a call (codegen.rs lines
618-629): the same index range in reverse, with `continue` (not `break`)
on non-register slots. -/
def pop_arg_registers (n : Nat) : List Nat :=
  (List.range n).reverse.foldl (fun acc i =>
    let reg := (Register.convert_arg_register_id i).convert_to_instr_arg
    if reg.is_register then
      acc ++ (if reg.is_64_bit ≠ 0 then [0x41] else []) ++ [0x58 ||| reg.get_register]
    else acc) []

/-- `local_to_register.get` (a `HashMap<usize, Register>` modelled as a
cons-insertion list with first-match lookup). -/
def ltr_get (l : List (Nat × Register)) (k : Nat) : Option Register :=
  (l.find? (fun p => p.1 == k)).map (fun p => p.2)

/-- Emitter state threaded through the per-instruction loop of
codegen.rs lines 320-638. -/
structure EmitState where
  data : List Nat
  func_refs : List (Nat × String × Bool)
  local_to_register : List (Nat × Register)
  register_lifetimes : List Nat
deriving DecidableEq

/-- The first-six-argument marshalling loop of a known-arity call
(codegen.rs lines 502-551): arguments are moved into the ABI argument
registers; function-reference arguments get a `movabs` with an absolute
reference recorded; spilled locations are `todo!()` panics (`none`).  The
loop breaks after index `ARG_REGISTER_COUNT - 1 = 5`. -/
def marshal_register_args (ltr : List (Nat × Register)) :
    Nat → List IrArgument → List Nat → List (Nat × String × Bool) →
    Option (List Nat × List (Nat × String × Bool))
  | _, [], data, refs => some (data, refs)
  | i, arg :: rest, data, refs => do
    let arg_location := (Register.convert_arg_register_id i).convert_to_instr_arg
    let (data, refs) ←
      match arg with
      | .Local l =>
        match ltr_get ltr l with
        | none => none
        | some reg =>
          let local_location := reg.convert_to_instr_arg
          if local_location.is_register then
            some (data ++
              [0x48 ||| arg_location.is_64_bit ||| (local_location.is_64_bit <<< 2), 0x8b,
               0xc0 ||| (arg_location.get_register <<< 3) ||| local_location.get_register],
              refs)
          else none
      | .Argument a =>
        let local_location := (Register.convert_arg_register_id a).convert_to_instr_arg
        if local_location.is_register then
          some (data ++
            [0x48 ||| arg_location.is_64_bit ||| (local_location.is_64_bit <<< 2), 0x8b,
             0xc0 ||| (arg_location.get_register <<< 3) ||| local_location.get_register],
            refs)
        else none
      | .Function fname =>
        let data := data ++ [0x48 ||| arg_location.is_64_bit, 0xb8 ||| arg_location.get_register]
        some (data ++ List.replicate 8 0, refs ++ [(data.length, fname, false)])
    if i = 6 - 1 then some (data, refs)
    else marshal_register_args ltr (i + 1) rest data refs

/-- The stack-argument loop of a known-arity call (codegen.rs lines
554-577), over `args.iter().skip(ARG_REGISTER_COUNT + 1).rev()`: only
function references are implemented (`movabs rax, f; push rax` with an
absolute reference recorded); locals and parameters are `todo!()`. -/
def marshal_stack_args : List IrArgument → List Nat →
    List (Nat × String × Bool) → Option (List Nat × List (Nat × String × Bool))
  | [], data, refs => some (data, refs)
  | arg :: rest, data, refs =>
    match arg with
    | .Local _ => none
    | .Argument _ => none
    | .Function fname =>
      let data := data ++ [0x48, 0xb8]
      let refs := refs ++ [(data.length, fname, false)]
      let data := data ++ List.replicate 8 0 ++ [0x50]
      marshal_stack_args rest data refs

/-- The per-instruction body of the emission loop (codegen.rs lines
320-638).  `none` models every `todo!()`, failed `unwrap()` and
out-of-bounds index of the source. -/
def emit_ssa (argc : Nat) (used : List Nat) (st : EmitState) (ssa : IrSsa) :
    Option EmitState := do
  -- codegen.rs lines 321-325: decrement every nonzero register lifetime
  let lifetimes := st.register_lifetimes.map (fun lt => if lt ≠ 0 then lt - 1 else lt)
  -- codegen.rs lines 327-340: record the produced value's register; note
  -- the reversed bounds check: when `len < local_register` the source
  -- indexes out of bounds (a panic), otherwise it pushes
  let (lifetimes, ltr) ←
    match ssa.local_id with
    | none => some (lifetimes, st.local_to_register)
    | some l =>
      let register := Register.convert_nonarg_register_id ssa.local_register
      if lifetimes.length < ssa.local_register then none
      else some (lifetimes ++ [ssa.local_lifetime], (l, register) :: st.local_to_register)
  match ssa.instr with
  | .Ret => do
    -- codegen.rs lines 343-370: move the returned local into rax
    let move_bytes ←
      match ssa.args.head? with
      | some (.Local arg) =>
        match ltr_get ltr arg with
        | none => none
        | some register =>
          if register = Register.Rax then some []
          else
            let local_location := register.convert_to_instr_arg
            if local_location.is_register then
              some [0x48 ||| local_location.is_64_bit, 0x89,
                    0xc0 ||| (local_location.get_register <<< 3)]
            else
              -- mov rax, [rbp + offset] with offset = (-(off as i32) * 8) as u32
              some ([0x48, 0x8b, 0x85] ++
                le_bytes 4 (as_u32 (-(8 * (local_location.get_offset : Int)))))
      | _ => some []
    -- codegen.rs lines 373-391: pop used registers, tear down, ret
    pure { st with
      data := st.data ++ move_bytes ++ emit_pop_used used
        ++ [0x48, 0x89, 0xec] ++ [0x5d] ++ [0xc3],
      local_to_register := ltr, register_lifetimes := lifetimes }
  | .Load => do
    -- codegen.rs lines 394-475
    let (data, refs) ←
      match ssa.local_id with
      | none => some (st.data, st.func_refs)
      | some l =>
        match ltr_get ltr l with
        | none => none
        | some reg =>
          let local_location := reg.convert_to_instr_arg
          match ssa.args.head? with
          | some (.Argument arg) =>
            let arg_location := (Register.convert_arg_register_id arg).convert_to_instr_arg
            match local_location.is_register, arg_location.is_register with
            | true, true =>
              some (st.data ++
                [0x48 ||| arg_location.is_64_bit ||| (local_location.is_64_bit <<< 2), 0x89,
                 0xc0 ||| (arg_location.get_register <<< 3) ||| local_location.get_register],
                st.func_refs)
            | false, true => none
            | true, false =>
              some (st.data ++
                [0x48 ||| (local_location.is_64_bit <<< 2), 0x8b,
                 0x80 ||| (local_location.get_register <<< 3)
                   ||| Register.Rbp.convert_to_instr_arg.get_register] ++
                le_bytes 4 (as_u32 (((arg_location.get_offset : Int) + 2) * 8)),
                st.func_refs)
            | false, false => none
          | some (.Function fname) =>
            if local_location.is_register then
              let data := st.data ++ [0x48 ||| local_location.is_64_bit,
                                      0xb8 ||| local_location.get_register]
              some (data ++ List.replicate 8 0,
                    st.func_refs ++ [(data.length, fname, false)])
            else none
          | _ => some (st.data, st.func_refs)
    pure { data := data, func_refs := refs,
           local_to_register := ltr, register_lifetimes := lifetimes }
  | .Apply => none
  | .Call known_arity => do
    -- codegen.rs lines 480-484: preserve r11 if still live
    let some r11_id := Register.R11.revert_to_nonarg_register_id | none
    let some r11_lt := lifetimes.get? r11_id | none
    let data := st.data ++ (if r11_lt ≠ 0 then [0x41, 0x53] else [])
    -- codegen.rs lines 487-498
    let data := data ++ push_arg_registers (min (ssa.args.length - 1) argc)
    if known_arity then
      -- codegen.rs lines 502-551
      let (data, refs) ← marshal_register_args ltr 0 (ssa.args.drop 1) data st.func_refs
      -- codegen.rs lines 554-577
      let (data, refs) ← marshal_stack_args (ssa.args.drop 7).reverse data refs
      -- codegen.rs lines 579-595: direct call with a relative reference
      let (data, refs) ←
        match ssa.args.head? with
        | none => none
        | some (.Local _) => none
        | some (.Argument _) => none
        | some (.Function fname) =>
          let data := data ++ [0xe8]
          some (data ++ List.replicate 4 0, refs ++ [(data.length, fname, true)])
      -- codegen.rs lines 597-612: move rax into the destination; note the
      -- source converts the local id itself, not the assigned register
      let data ←
        match ssa.local_id with
        | none => some data
        | some l =>
          let local_location := (Register.convert_nonarg_register_id l).convert_to_instr_arg
          if local_location.is_register then
            some (data ++ [0x48 ||| local_location.is_64_bit, 0x8b,
              0xc0 ||| (local_location.get_register <<< 3)
                ||| Register.Rax.convert_to_instr_arg.get_register])
          else none
      -- codegen.rs lines 618-635
      let data := data ++ pop_arg_registers (min (ssa.args.length - 1) argc)
      let data := data ++ (if r11_lt ≠ 0 then [0x41, 0x5b] else [])
      pure { data := data, func_refs := refs,
             local_to_register := ltr, register_lifetimes := lifetimes }
    else none

/-- Compilation of a single function (the loop body of codegen.rs lines
255-640): pad to 16 bytes, store the arity as a fixed-width little-endian
header plus 8 padding bytes, record the function start, emit the
prologue, run the register allocator, push the used callee-saved
registers, emit every instruction, and finally fix the function's end
offset.  `alloc` stands for `common::linear_scan`. -/
def compile_function (alloc : IrFunction → IrFunction)
    (code : GeneratedCode) (func0 : IrFunction) : Option GeneratedCode := do
  let data := code.data ++ List.replicate ((16 - code.data.length % 16) % 16) 0
  let data := data ++ le_bytes 8 func0.argc ++ List.replicate 8 0
  let func_addrs := addrs_insert code.func_addrs func0.name (data.length, data.length + 1)
  let data := data ++ [0x55, 0x48, 0x89, 0xe5]
  let func := alloc func0
  let used := used_registers func.ssas
  let data := data ++ emit_push_used used
  let st ← func.ssas.foldlM (emit_ssa func.argc used)
    { data := data, func_refs := code.func_refs,
      local_to_register := [], register_lifetimes := List.replicate 8 0 }
  let func_addrs ← addrs_set_end func_addrs func.name st.data.length
  pure { func_addrs := func_addrs, func_refs := st.func_refs, data := st.data }

/-- `generate_code` (codegen.rs lines 252-643).  The register allocator
`common::linear_scan` lives in `src/backends/common.rs`, which is absent
from the sources; modelled from the spec (section 4.3) as an abstract
collaborator `alloc` that fills in the `local_register` fields. -/
def generate_code (alloc : IrFunction → IrFunction) (module : IrModule) :
    Option GeneratedCode :=
  module.funcs.foldlM (compile_function alloc)
    { func_addrs := [], func_refs := [], data := [] }

/-! ## Auxiliary definitions for the claim statements and proofs -/

/-- The byte a single relocation entry would write at buffer position `p`
(`none` when the entry does not cover `p`, its target is unknown, or `p`
is past the buffer of length `len`).  This is the per-position view of
`apply_ref`. -/
def write_val (func_addrs : List (String × Nat × Nat)) (base len : Nat)
    (r : Nat × String × Bool) (p : Nat) : Option Nat :=
  match addr_lookup func_addrs r.2.1 with
  | none => none
  | some range =>
    let ab : Nat × Nat :=
      if r.2.2 then (as_u32 ((range.1 : Int) - (r.1 : Int) - 4), 4)
      else ((base + range.1) % 2 ^ 64, 8)
    if r.1 ≤ p ∧ p < r.1 + ab.2 ∧ p < len then
      some ((ab.1 >>> ((p - r.1) * 8)) &&& 0xff)
    else none

/-- The last byte written at position `p` by the relocation loop (later
entries overwrite earlier ones). -/
def last_write (func_addrs : List (String × Nat × Nat)) (base len p : Nat)
    (refs : List (Nat × String × Bool)) : Option Nat :=
  refs.foldl (fun acc r =>
    match write_val func_addrs base len r p with
    | some v => some v
    | none => acc) none

/-- Index of the last element of the list that references local `l` as an
operand. -/
def last_ref_idx (l : Nat) : List IrSsa → Option Nat
  | [] => none
  | s :: rest =>
    match last_ref_idx l rest with
    | some k => some (k + 1)
    | none => if refs_local s l then some 0 else none

/-- Everything of an ssa except its lifetime (lifetime analysis rewrites
only the lifetime field). -/
def ssa_shape (s : IrSsa) : Option Nat × Nat × IrInstruction × List IrArgument :=
  (s.local_id, s.local_register, s.instr, s.args)

/-- The expression shapes `conversion_helper` rejects with a `todo!()`
panic (ir.rs lines 117-118, 132, 148-149, 196-198): assignment, pattern
matching, with-scoping, external functions, type aliases, chains, empty
bodies, and symbol references that are not bound parameters. -/
def rejected_shape (am : List (String × Nat)) : SExpr → Bool
  | .Empty _ => true
  | .TypeAlias _ _ => true
  | .ExternalFunc _ _ _ => true
  | .Chain _ _ _ => true
  | .Assign _ _ _ => true
  | .With _ _ => true
  | .Match _ _ => true
  | .Symbol _ s => (args_map_get am s).isNone
  | _ => false

/-- The `known_arity` flag sequence produced by the application-chain loop
(ir.rs lines 163-179), extracted over the popped arity annotations
(innermost layer first): a `Call(last_arity != 0)` is emitted at every
layer whose arity is 0, and `last_arity` is overwritten with the layer's
arity each iteration. -/
def chain_call_flags (last_arity : Nat) : List Nat → List Bool
  | [] => []
  | r :: rest =>
    if r = 0 then decide (last_arity ≠ 0) :: chain_call_flags r rest
    else chain_call_flags r rest

/-- The flag sequence the spec prescribes for the same arity list: a call
closes each 0-arity layer, and its `known_arity` is true exactly when the
callee's own declared arity before any arguments were applied was nonzero
— the base callee's arity for the first call, and 0 (the unknown arity of
a call result) for every later call of the chain. -/
def spec_call_flags (callee_arity : Nat) : List Nat → List Bool
  | [] => []
  | r :: rest =>
    if r = 0 then decide (callee_arity ≠ 0) :: spec_call_flags 0 rest
    else spec_call_flags callee_arity rest

/-- Modelled from the spec: the residual-arity annotations the frontend
places on an application chain whose base callee has declared arity `a` —
each layer consumes one argument, `a - 1, a - 2, ..., 1, 0`, and once the
counter is exhausted (or the callee's arity is unknown, `a = 0`) every
further layer is annotated 0. -/
def residuals (a : Nat) : Nat → List Nat
  | 0 => []
  | n + 1 => (a - 1) :: residuals (a - 1) n

/-- An application chain: `layers` lists `(arity annotation, argument)`
outermost layer first, applied to the base callee expression. -/
def mk_chain (base : SExpr) : List (Nat × SExpr) → SExpr
  | [] => base
  | l :: rest => .Application ⟨l.1⟩ (mk_chain base rest) l.2

/-- The `known_arity` flags of the `Call` instructions of an instruction
list, in order. -/
def call_flags (ssas : List IrSsa) : List Bool :=
  ssas.foldr (fun s acc =>
    match s.instr with
    | .Call b => b :: acc
    | _ => acc) []

/-- An expression whose lowering emits exactly one `Load` and no call: a
symbol bound in the args map, or a top-level function reference. -/
def is_atomic_ok (am : List (String × Nat)) (e : SExpr) : Prop :=
  (∃ m s a, e = .Symbol m s ∧ args_map_get am s = some a) ∨
    ∃ m f, e = .Function m f

/-- Relation between the function a lowering step received and the one it
returned: name and parameter count are untouched and instructions are only
appended, each appended one carrying lifetime 0 and not being a `Ret`. -/
def appends_fresh (fn fn2 : IrFunction) : Prop :=
  fn2.name = fn.name ∧ fn2.argc = fn.argc ∧
  ∃ tail, fn2.ssas = fn.ssas ++ tail ∧
    ∀ s ∈ tail, s.local_lifetime = 0 ∧ s.instr ≠ .Ret

/-! ## Relocation lemmas -/

lemma write_loop_length (addr bc : Nat) :
    ∀ (l : List Nat) (i : Nat), (write_loop l i addr bc).length = l.length
  | [], _ => rfl
  | b :: rest, i => by
    simp only [write_loop]
    split
    · rfl
    · simp [write_loop_length addr bc rest (i + 1)]

lemma write_loop_get? (addr bc : Nat) :
    ∀ (l : List Nat) (i p : Nat),
      (write_loop l i addr bc).get? p =
        if i + p < bc ∧ p < l.length then
          some ((addr >>> ((i + p) * 8)) &&& 0xff)
        else l.get? p
  | [], i, p => by simp [write_loop]
  | b :: rest, i, p => by
    simp only [write_loop]
    by_cases hbc : bc ≤ i
    · rw [if_pos hbc, if_neg (by simp; omega)]
    · rw [if_neg hbc]
      cases p with
      | zero =>
        have : i + 0 < bc ∧ 0 < (b :: rest).length := by simp; omega
        rw [if_pos this]
        simp
      | succ p =>
        simp only [List.get?_cons_succ]
        rw [write_loop_get? addr bc rest (i + 1) p]
        have harith : i + 1 + p = i + (p + 1) := by omega
        rw [harith]
        by_cases h : i + (p + 1) < bc ∧ p < rest.length
        · rw [if_pos h, if_pos (by simp; omega)]
        · rw [if_neg h, if_neg (by simp; omega)]

lemma patch_at_length (d : List Nat) (off addr bc : Nat) :
    (patch_at d off addr bc).length = d.length := by
  simp [patch_at, write_loop_length]
  omega

lemma patch_at_get? (d : List Nat) (off addr bc p : Nat) :
    (patch_at d off addr bc).get? p =
      if off ≤ p ∧ p < off + bc ∧ p < d.length then
        some ((addr >>> ((p - off) * 8)) &&& 0xff)
      else d.get? p := by
  unfold patch_at
  have htk : (d.take off).length = min off d.length := by simp
  by_cases hlt : p < min off d.length
  · rw [List.get?_append (by omega), List.get?_take (by omega),
      if_neg (by omega)]
  · rw [List.get?_append_right (by omega)]
    rw [htk]
    by_cases hoff : off ≤ d.length
    · have hmin : min off d.length = off := by omega
      rw [hmin, write_loop_get? addr bc (d.drop off) 0 (p - off)]
      simp only [Nat.zero_add, List.length_drop]
      by_cases h : p - off < bc ∧ p - off < d.length - off
      · rw [if_pos h, if_pos (by omega)]
      · rw [if_neg h, List.get?_drop, if_neg (by omega)]
        have harith : off + (p - off) = p := by omega
        rw [harith]
    · have hmin : min off d.length = d.length := by omega
      have hnil : d.drop off = [] := List.drop_eq_nil_of_le (by omega)
      rw [hmin, hnil]
      rw [show write_loop ([] : List Nat) 0 addr bc = [] from rfl]
      rw [List.get?_eq_none.mpr (by simp), if_neg (by omega),
        List.get?_eq_none.mpr (by omega)]

lemma apply_ref_length (A : List (String × Nat × Nat)) (base : Nat)
    (d : List Nat) (r : Nat × String × Bool) :
    (apply_ref A base d r).length = d.length := by
  unfold apply_ref
  split
  · rfl
  · exact patch_at_length _ _ _ _

lemma apply_ref_get? (A : List (String × Nat × Nat)) (base : Nat)
    (d : List Nat) (r : Nat × String × Bool) (p : Nat) :
    (apply_ref A base d r).get? p =
      match write_val A base d.length r p with
      | some v => some v
      | none => d.get? p := by
  obtain ⟨o, nm, rel⟩ := r
  unfold apply_ref write_val
  cases haddr : addr_lookup A nm with
  | none => simp
  | some range =>
    cases rel <;> simp only [Bool.false_eq_true, if_false, if_true] <;>
      rw [patch_at_get?] <;>
      [skip; skip] <;> first
      | (by_cases hc : o ≤ p ∧ p < o + 8 ∧ p < d.length
         · simp only [if_pos hc]
         · simp only [if_neg hc])
      | (by_cases hc : o ≤ p ∧ p < o + 4 ∧ p < d.length
         · simp only [if_pos hc]
         · simp only [if_neg hc])

lemma last_write_acc (A : List (String × Nat × Nat)) (base len p : Nat) :
    ∀ (refs : List (Nat × String × Bool)) (acc : Option Nat),
      refs.foldl (fun acc r =>
        match write_val A base len r p with
        | some v => some v
        | none => acc) acc =
      match last_write A base len p refs with
      | some v => some v
      | none => acc
  | [], acc => by simp [last_write]
  | r :: rest, acc => by
    simp only [last_write, List.foldl_cons]
    rw [last_write_acc A base len p rest, last_write_acc A base len p rest]
    cases last_write A base len p rest <;> cases write_val A base len r p <;> simp

lemma relocate_fold_length (A : List (String × Nat × Nat)) (base : Nat) :
    ∀ (refs : List (Nat × String × Bool)) (d : List Nat),
      (refs.foldl (apply_ref A base) d).length = d.length
  | [], d => rfl
  | r :: rest, d => by
    simp only [List.foldl_cons]
    rw [relocate_fold_length A base rest, apply_ref_length]

lemma relocate_fold_get? (A : List (String × Nat × Nat)) (base : Nat) :
    ∀ (refs : List (Nat × String × Bool)) (d : List Nat) (p : Nat),
      (refs.foldl (apply_ref A base) d).get? p =
        match last_write A base d.length p refs with
        | some v => some v
        | none => d.get? p
  | [], d, p => by simp [last_write]
  | r :: rest, d, p => by
    simp only [List.foldl_cons]
    rw [relocate_fold_get? A base rest, apply_ref_length, apply_ref_get?]
    have hstep : last_write A base d.length p (r :: rest) =
        match last_write A base d.length p rest with
        | some v => some v
        | none => match write_val A base d.length r p with
                  | some v => some v
                  | none => none := by
      simp only [last_write, List.foldl_cons]
      rw [last_write_acc]
      rfl
    rw [hstep]
    cases last_write A base d.length p rest <;>
      cases write_val A base d.length r p <;> simp

lemma last_write_none (A : List (String × Nat × Nat)) (base len p : Nat)
    (refs : List (Nat × String × Bool))
    (h : ∀ r ∈ refs, write_val A base len r p = none) :
    last_write A base len p refs = none := by
  induction refs with
  | nil => rfl
  | cons r rest ih =>
    have hr := h r (by simp)
    have hstep : last_write A base len p (r :: rest) =
        match last_write A base len p rest with
        | some v => some v
        | none => match write_val A base len r p with
                  | some v => some v
                  | none => none := by
      simp only [last_write, List.foldl_cons]
      rw [last_write_acc]
      rfl
    rw [hstep, ih (fun r hr => h r (by simp [hr])), hr]

lemma last_write_eq (A : List (String × Nat × Nat)) (base len p v : Nat)
    (refs : List (Nat × String × Bool))
    (hall : ∀ r ∈ refs, write_val A base len r p = none ∨
      write_val A base len r p = some v)
    (hex : ∃ r ∈ refs, write_val A base len r p = some v) :
    last_write A base len p refs = some v := by
  induction refs with
  | nil => simp at hex
  | cons r rest ih =>
    have hstep : last_write A base len p (r :: rest) =
        match last_write A base len p rest with
        | some v => some v
        | none => match write_val A base len r p with
                  | some v => some v
                  | none => none := by
      simp only [last_write, List.foldl_cons]
      rw [last_write_acc]
      rfl
    rw [hstep]
    by_cases hrest : ∃ q ∈ rest, write_val A base len q p = some v
    · rw [ih (fun q hq => hall q (by simp [hq])) hrest]
    · have hnone : last_write A base len p rest = none := by
        apply last_write_none
        intro q hq
        rcases hall q (by simp [hq]) with h | h
        · exact h
        · exact absurd ⟨q, hq, h⟩ hrest
      rw [hnone]
      have : write_val A base len r p = some v := by
        rcases hex with ⟨q, hq, hqv⟩
        rcases List.mem_cons.mp hq with rfl | hq'
        · exact hqv
        · exact absurd ⟨q, hq', hqv⟩ hrest
      rw [this]

lemma write_val_none_of_far (A : List (String × Nat × Nat)) (base len p : Nat)
    (r : Nat × String × Bool) (h : p < r.1 ∨ r.1 + 8 ≤ p) :
    write_val A base len r p = none := by
  obtain ⟨o, nm, rel⟩ := r
  unfold write_val
  cases haddr : addr_lookup A nm with
  | none => rfl
  | some range =>
    cases rel <;> simp only [Bool.false_eq_true, if_false, if_true] <;>
      exact if_neg (by simp at h ⊢; omega)

/-- C10: relocation is idempotent for a fixed base: every patched byte is
computed only from the address table, the reference map and the base,
never from the buffer's current contents, so a second pass rewrites the
identical bytes. -/
theorem c10_relocate_idempotent (base : Nat) (code : GeneratedCode) :
    relocate base (relocate base code) = relocate base code := by
  obtain ⟨A, refs, d⟩ := code
  simp only [relocate]
  congr 1
  apply List.ext
  intro p
  rw [relocate_fold_get? A base refs, relocate_fold_length A base refs,
    relocate_fold_get? A base refs]
  cases last_write A base d.length p refs <;> simp

/-- C2: applying `relocate` with base `B` patches each recorded reference
whose target function is in the address table exactly as specified: a
relative reference at offset `o` targeting start offset `t` gets the 4
bytes at `o` set to the little-endian encoding modulo `2 ^ 32` of
`t - o - 4`, and an absolute reference gets the 8 bytes at `o` set to the
little-endian encoding of `B + t` (modulo `2 ^ 64`).  The reference's
patch window must lie inside the buffer and not overlap any other
recorded reference. -/
theorem c2_relocation_math (code : GeneratedCode) (base o t e : Nat)
    (name : String) (rel : Bool)
    (href : (o, name, rel) ∈ code.func_refs)
    (haddr : addr_lookup code.func_addrs name = some (t, e))
    (hbound : o + (if rel then 4 else 8) ≤ code.data.length)
    (hdisj : ∀ r ∈ code.func_refs,
      r = (o, name, rel) ∨ r.1 + 8 ≤ o ∨ o + (if rel then 4 else 8) ≤ r.1) :
    ∀ i, i < (if rel then 4 else 8) →
      (relocate base code).data.get? (o + i) =
        some (((if rel then as_u32 ((t : Int) - (o : Int) - 4)
            else (base + t) % 2 ^ 64) >>> (i * 8)) &&& 0xff) := by
  intro i hi
  show (code.func_refs.foldl (apply_ref code.func_addrs base) code.data).get? (o + i) = _
  rw [relocate_fold_get?]
  have hv : write_val code.func_addrs base code.data.length (o, name, rel) (o + i)
      = some (((if rel then as_u32 ((t : Int) - (o : Int) - 4)
          else (base + t) % 2 ^ 64) >>> (i * 8)) &&& 0xff) := by
    unfold write_val
    rw [haddr]
    cases rel <;> simp only [Bool.false_eq_true, if_false, if_true] at hi hbound ⊢ <;>
      rw [if_pos ⟨by omega, by omega, by omega⟩] <;>
      · have harith : o + i - o = i := by omega
        rw [harith]
  rw [last_write_eq code.func_addrs base code.data.length (o + i) _ code.func_refs
    ?_ ⟨(o, name, rel), href, hv⟩]
  intro r hr
  rcases hdisj r hr with rfl | h8 | hge
  · right
    exact hv
  · left
    apply write_val_none_of_far
    right
    omega
  · left
    apply write_val_none_of_far
    left
    cases rel <;> simp only [Bool.false_eq_true, if_false, if_true] at hi hge <;> omega

/-- Witness for C2: the spec scenario — a relative displacement field at
offset 101 targeting a function start at offset 200 is patched to
`200 - 101 - 4 = 95`. -/
theorem c2_relocation_math_witness :
    (relocate 4096 ⟨[("f", 200, 201)], [(101, "f", true)],
      List.replicate 105 0⟩).data.get? 101 = some 95 := by
  have h := c2_relocation_math
    ⟨[("f", 200, 201)], [(101, "f", true)], List.replicate 105 0⟩
    4096 101 200 201 "f" true (by simp) (by rfl) (by simp) ?_ 0 (by decide)
  · simpa [as_u32] using h
  · intro r hr
    simp at hr
    subst hr
    left
    rfl

/-- C3 counterexample: a recorded reference whose target name is absent
from the address table does not fail relocation — `relocate` (whose
return type has no error channel at all) completes and returns the buffer
with the placeholder zero bytes at that reference untouched. -/
theorem c3_counterexample :
    relocate 4096 ⟨[("f", 200, 201)], [(0, "g", true)], [0, 0, 0, 0]⟩ =
      ⟨[("f", 200, 201)], [(0, "g", true)], [0, 0, 0, 0]⟩ := by
  rfl

/-- C3 amended: `relocate` silently skips any recorded reference whose
target function name is absent from the address table: the operation
completes (it is total and returns no error), the maps are unchanged, and
the placeholder bytes at such a reference stay exactly as emitted
whenever no other reference overlaps them. -/
theorem c3_amended_skips_missing (code : GeneratedCode) (base o : Nat)
    (name : String) (rel : Bool)
    (_href : (o, name, rel) ∈ code.func_refs)
    (_hmiss : addr_lookup code.func_addrs name = none)
    (hdisj : ∀ r ∈ code.func_refs,
      addr_lookup code.func_addrs r.2.1 = none ∨ r.1 + 8 ≤ o ∨ o + 8 ≤ r.1) :
    (relocate base code).func_addrs = code.func_addrs ∧
    (relocate base code).func_refs = code.func_refs ∧
    ∀ i, i < 8 → (relocate base code).data.get? (o + i) = code.data.get? (o + i) := by
  refine ⟨rfl, rfl, ?_⟩
  intro i hi
  show (code.func_refs.foldl (apply_ref code.func_addrs base) code.data).get? (o + i) = _
  rw [relocate_fold_get?]
  rw [last_write_none]
  intro r hr
  rcases hdisj r hr with hnone | h8 | hge
  · obtain ⟨ro, rn, rr⟩ := r
    unfold write_val
    rw [hnone]
  · apply write_val_none_of_far
    right
    omega
  · apply write_val_none_of_far
    left
    omega

/-- Witness for C3: a reference at offset 0 to the unknown name `g`
leaves the buffer bytes unchanged while relocation completes. -/
theorem c3_amended_witness :
    (relocate 4096 ⟨[("f", 200, 201)], [(0, "g", true)],
        [7, 7, 7, 7, 7, 7, 7, 7]⟩).func_addrs = [("f", 200, 201)] ∧
    (relocate 4096 ⟨[("f", 200, 201)], [(0, "g", true)],
        [7, 7, 7, 7, 7, 7, 7, 7]⟩).func_refs = [(0, "g", true)] ∧
    ∀ i, i < 8 → (relocate 4096 ⟨[("f", 200, 201)], [(0, "g", true)],
        [7, 7, 7, 7, 7, 7, 7, 7]⟩).data.get? (0 + i) =
      ([7, 7, 7, 7, 7, 7, 7, 7] : List Nat).get? (0 + i) := by
  refine c3_amended_skips_missing _ 4096 0 "g" true (by simp) (by rfl) ?_
  intro r hr
  simp at hr
  subst hr
  left
  rfl

/-- C7 (code bug): the epilogue pops the used callee-saved pool registers
in the same order the prologue pushed them, not in reverse.  With pool
registers 0 (`rbx`) and 4 (`r12`) both used, the prologue emits
`push rbx; push r12` and the epilogue emits `pop rbx; pop r12`, which is
not the reverse order (`pop r12; pop rbx`), so the two registers are
restored with each other's values. -/
theorem c7_epilogue_pop_order :
    used_registers
      [⟨some 0, 0, 0, .Load, [.Argument 0]⟩,
       ⟨some 1, 0, 4, .Load, [.Argument 1]⟩] = [0, 4] ∧
    emit_push_used [0, 4] = [0x53, 0x41, 0x54] ∧
    emit_pop_used [0, 4] = [0x5b, 0x41, 0x5c] ∧
    emit_pop_used [0, 4] ≠ emit_pop_used ([0, 4].reverse) := by
  decide

/-! ## Args-map lemmas (claim C1) -/

lemma args_map_get_acc (k : String) :
    ∀ (l : List (String × Nat)) (acc : Option Nat),
      l.foldl (fun acc p => if p.1 = k then some p.2 else acc) acc =
        match args_map_get l k with
        | some v => some v
        | none => acc
  | [], acc => by simp [args_map_get]
  | p :: rest, acc => by
    simp only [args_map_get, List.foldl_cons]
    rw [args_map_get_acc k rest, args_map_get_acc k rest]
    cases hrest : args_map_get rest k <;>
      by_cases hp : p.1 = k <;> simp [hp, hrest]

lemma args_map_get_append (l1 l2 : List (String × Nat)) (k : String) :
    args_map_get (l1 ++ l2) k =
      match args_map_get l2 k with
      | some v => some v
      | none => args_map_get l1 k := by
  show (l1 ++ l2).foldl _ none = _
  rw [List.foldl_append, args_map_get_acc]
  rfl

lemma args_map_get_none (k : String) (l : List (String × Nat))
    (h : ∀ p ∈ l, p.1 ≠ k) : args_map_get l k = none := by
  induction l with
  | nil => rfl
  | cons p rest ih =>
    have : args_map_get (p :: rest) k =
        match args_map_get rest k with
        | some v => some v
        | none => if p.1 = k then some p.2 else none := by
      simp only [args_map_get, List.foldl_cons]
      rw [args_map_get_acc]
      cases rest.foldl (fun acc q => if q.1 = k then some q.2 else acc)
        (if p.1 = k then some p.2 else none) <;> rfl
    rw [this, ih (fun q hq => h q (by simp [hq])), if_neg (h p (by simp))]

lemma args_map_get_enumFrom (k : String) :
    ∀ (args : List String) (j : Nat) (n : Nat) (l1 : List (String × Nat)),
      args.get? j = some k →
      (∀ i, i ≠ j → args.get? i ≠ some k) →
      args_map_get (l1 ++ (args.enumFrom n).map (fun p => (p.2, p.1))) k =
        some (n + j)
  | [], j, n, l1, hj, _ => by simp at hj
  | x :: rest, j, n, l1, hj, huniq => by
    have hmap : (((x :: rest).enumFrom n).map
        (fun p : Nat × String => (p.2, p.1))) =
        (x, n) :: (rest.enumFrom (n + 1)).map (fun p => (p.2, p.1)) := by
      simp [List.enumFrom_cons]
    rw [hmap, List.append_cons]
    have hrest : ∀ p ∈ (rest.enumFrom (n + 1)).map
        (fun p : Nat × String => (p.2, p.1)), j = 0 → p.1 ≠ k := by
      intro p hp _
      have hkeys : p.1 ∈ rest := by
        have hcomp : (((rest.enumFrom (n + 1)).map
            (fun p : Nat × String => (p.2, p.1))).map Prod.fst) = rest := by
          rw [List.map_map]
          rw [show (Prod.fst ∘ fun p : Nat × String => (p.2, p.1)) = Prod.snd
            from rfl]
          exact List.enumFrom_map_snd _ _
        exact hcomp ▸ List.mem_map_of_mem Prod.fst hp
      intro hk
      subst hk
      rcases List.get?_of_mem hkeys with ⟨i, hi⟩
      exact huniq (i + 1) (by omega) (by simpa using hi)
    cases j with
    | zero =>
      have hx : x = k := by simpa using hj
      rw [args_map_get_append, args_map_get_none k _
        (fun p hp => hrest p hp rfl), args_map_get_append]
      simp [args_map_get, hx]
    | succ j =>
      rw [args_map_get_enumFrom k rest j (n + 1) (l1 ++ [(x, n)])
        (by simpa using hj)
        (fun i hi => huniq (i + 1) (by omega))]
      congr 1
      omega

/-! ## Panic propagation of `conversion_helper` and `generate_code`
(claims C4 and C5) -/

lemma rejected_lower_none (am : List (String × Nat)) (func : IrFunction)
    (e : SExpr) (h : rejected_shape am e = true) :
    conversion_helper am func e = none := by
  cases e with
  | Application m f a => simp [rejected_shape] at h
  | Symbol m s =>
    simp only [rejected_shape, Option.isNone_iff_eq_none] at h
    simp [conversion_helper, lower_atom, h]
  | Empty m => simp [conversion_helper, lower_atom]
  | TypeAlias m x => simp [conversion_helper, lower_atom]
  | Function m f => simp [rejected_shape] at h
  | ExternalFunc m x c => simp [conversion_helper, lower_atom]
  | Chain m a b => simp [conversion_helper, lower_atom]
  | Assign m x v => simp [conversion_helper, lower_atom]
  | With m b => simp [conversion_helper, lower_atom]
  | Match m v => simp [conversion_helper, lower_atom]

lemma convert_functions_none :
    ∀ (l : List FrontendFunction) (a : FrontendFunction), a ∈ l →
      convert_function a = none → convert_functions l = none
  | [], a, ha, _ => by simp at ha
  | x :: rest, a, ha, hf => by
    rcases List.mem_cons.mp ha with rfl | ha'
    · simp [convert_functions, hf]
    · rw [convert_functions]
      cases hx : convert_function x with
      | none => rfl
      | some b => simp [hx, convert_functions_none rest a ha' hf]

lemma foldlM_none_of_mem {α β : Type} (f : β → α → Option β) :
    ∀ (l : List α) (init : β) (a : α), a ∈ l → (∀ b, f b a = none) →
      l.foldlM f init = none
  | [], _, a, ha, _ => by simp at ha
  | x :: rest, init, a, ha, hf => by
    rcases List.mem_cons.mp ha with rfl | ha'
    · simp [List.foldlM_cons, hf init]
    · rw [List.foldlM_cons]
      cases f init x with
      | none => rfl
      | some b => simpa using foldlM_none_of_mem f rest b a ha' hf

lemma emit_ssa_bad (argc : Nat) (used : List Nat) (st : EmitState)
    (ssa : IrSsa) (h : ssa.instr = .Apply ∨ ssa.instr = .Call false) :
    emit_ssa argc used st ssa = none := by
  unfold emit_ssa
  rcases h with h | h <;> rw [h]
  · cases ssa.local_id with
    | none => rfl
    | some l =>
      dsimp only
      split
      · rfl
      · rfl
  · cases ssa.local_id with
    | none =>
      simp only [Option.bind_eq_bind, Option.some_bind,
        Register.revert_to_nonarg_register_id]
      cases (st.register_lifetimes.map fun lt =>
          if lt ≠ 0 then lt - 1 else lt).get? 3 <;> rfl
    | some l =>
      dsimp only
      split
      · rfl
      · simp only [Option.bind_eq_bind, Option.some_bind,
          Register.revert_to_nonarg_register_id]
        cases ((st.register_lifetimes.map fun lt =>
            if lt ≠ 0 then lt - 1 else lt) ++ [ssa.local_lifetime]).get? 3 <;> rfl

lemma foldlM_emit_none (argc : Nat) (used : List Nat) :
    ∀ (l : List IrSsa) (st : EmitState) (ssa : IrSsa), ssa ∈ l →
      (ssa.instr = .Apply ∨ ssa.instr = .Call false) →
      l.foldlM (emit_ssa argc used) st = none
  | [], _, ssa, h, _ => by simp at h
  | x :: rest, st, ssa, h, hbad => by
    rcases List.mem_cons.mp h with rfl | h'
    · simp [List.foldlM_cons, emit_ssa_bad argc used st ssa hbad]
    · rw [List.foldlM_cons]
      cases emit_ssa argc used st x with
      | none => rfl
      | some st2 => simpa using foldlM_emit_none argc used rest st2 ssa h' hbad

lemma compile_function_none (alloc : IrFunction → IrFunction)
    (func : IrFunction)
    (hpres : ((alloc func).ssas.map (fun s => s.instr)) =
      func.ssas.map (fun s => s.instr))
    (ssa : IrSsa) (hmem : ssa ∈ func.ssas)
    (hbad : ssa.instr = .Apply ∨ ssa.instr = .Call false) :
    ∀ code, compile_function alloc code func = none := by
  intro code
  have hms : ssa.instr ∈ (alloc func).ssas.map (fun s => s.instr) := by
    rw [hpres]
    exact List.mem_map_of_mem _ hmem
  rcases List.mem_map.mp hms with ⟨s, hs, he⟩
  unfold compile_function
  dsimp only
  rw [foldlM_emit_none (alloc func).argc _ (alloc func).ssas _ s hs
    (by rw [he]; exact hbad)]
  rfl

lemma build_args_map_get_arg (captured args : List String) (j : Nat)
    (x : String) (hx : args.get? j = some x) (hnd : args.Nodup) :
    args_map_get (build_args_map captured args) x = some j := by
  unfold build_args_map
  rw [List.map_append]
  have huniq : ∀ i, i ≠ j → args.get? i ≠ some x := by
    intro i hij hi
    have hjl : j < args.length := (List.get?_eq_some.mp hx).1
    have hil : i < args.length := (List.get?_eq_some.mp hi).1
    exact hij (List.get?_inj hil hnd (by rw [hi, hx]))
  have h := args_map_get_enumFrom x args j 0
    (captured.enum.map (fun p => (p.2, p.1))) hx huniq
  simpa using h

/-- C1 counterexample: the claim predicts that with one captured variable
(`k = 1`) the 0-th declared argument `x` lowers to
`LoadValue(Parameter(k + 0)) = LoadValue(Parameter 1)`; the code maps both
enumerations from 0, so the symbol lowers to `LoadValue(Parameter 0)`
instead. -/
theorem c1_counterexample :
    conversion_helper (build_args_map ["c"] ["x"]) ⟨"f", 2, []⟩
        (.Symbol ⟨0⟩ "x") =
      some (⟨"f", 2, [⟨some 0, 0, 0, .Load, [.Argument 0]⟩]⟩, some 0) ∧
    IrArgument.Argument 0 ≠ IrArgument.Argument (1 + 0) := by
  refine ⟨?_, by decide⟩
  have h : conversion_helper (build_args_map ["c"] ["x"]) ⟨"f", 2, []⟩
      (.Symbol ⟨0⟩ "x") =
      lower_atom (build_args_map ["c"] ["x"]) ⟨"f", 2, []⟩ (.Symbol ⟨0⟩ "x") := by
    simp [conversion_helper]
  rw [h]
  rfl

/-- C1 amended: the bound-name map enumerates captured variables and
declared arguments each from index 0 (ir.rs line 240 calls `enumerate()`
separately on both iterators before chaining), with declared arguments
inserted after — and thus shadowing — captured variables of the same
name.  A `Symbol` reference to the `j`-th declared argument therefore
lowers to `LoadValue(Parameter j)`, not `Parameter (k + j)`. -/
theorem c1_amended_parameter_indices (captured args : List String) (j : Nat)
    (x : String) (m : SExprMetadata) (func : IrFunction)
    (hx : args.get? j = some x) (hnd : args.Nodup) :
    conversion_helper (build_args_map captured args) func (.Symbol m x) =
      some (func.push_ssa
        ⟨some func.get_next_local, 0, 0, .Load, [.Argument j]⟩,
        some func.get_next_local) := by
  have hc : conversion_helper (build_args_map captured args) func
      (.Symbol m x) =
      lower_atom (build_args_map captured args) func (.Symbol m x) := by
    simp [conversion_helper]
  rw [hc]
  simp only [lower_atom]
  rw [build_args_map_get_arg captured args j x hx hnd]

/-- Witness for C1's amended claim: with captured `["c"]` and declared
arguments `["x", "y"]`, a reference to the declared argument `y` (j = 1)
lowers to `LoadValue(Parameter 1)`. -/
theorem c1_amended_witness :
    conversion_helper (build_args_map ["c"] ["x", "y"]) ⟨"f", 3, []⟩
        (.Symbol ⟨0⟩ "y") =
      some ((⟨"f", 3, []⟩ : IrFunction).push_ssa
        ⟨some (⟨"f", 3, []⟩ : IrFunction).get_next_local, 0, 0, .Load,
          [.Argument 1]⟩,
        some (⟨"f", 3, []⟩ : IrFunction).get_next_local) :=
  c1_amended_parameter_indices ["c"] ["x", "y"] 1 "y" ⟨0⟩ ⟨"f", 3, []⟩
    (by rfl) (by decide)

/-- C4 counterexample: lowering a module whose second function body is an
assignment hits `todo!()` (ir.rs line 196): the conversion panics
(modelled `none`) — no defined lowering-error value is produced, and the
already-lowered first function is lost with the whole process. -/
theorem c4_counterexample :
    convert_frontend_ir_to_backend_ir
      ⟨[⟨"good", ["x"], [], [], .Symbol ⟨0⟩ "x"⟩,
        ⟨"bad", ["x"], [], [], .Assign ⟨0⟩ "y" (.Symbol ⟨0⟩ "x")⟩]⟩ = none := by
  unfold convert_frontend_ir_to_backend_ir
  rw [convert_functions_none _
    ⟨"bad", ["x"], [], [], .Assign ⟨0⟩ "y" (.Symbol ⟨0⟩ "x")⟩ (by simp) ?_]
  · rfl
  · unfold convert_function
    dsimp only
    rw [rejected_lower_none _ _ _ (by rfl)]
    rfl

/-- C4 amended: lowering an unsupported expression shape (assignment,
pattern matching, with-scoping, external-function declaration, type
alias, chain, empty body, or a symbol that is not a bound parameter) hits
`todo!()` and panics: the whole module conversion aborts with no defined
error value (the function's return type has no error channel), and no
previously lowered function survives. -/
theorem c4_unsupported_shapes (m : FrontendModule) (front : FrontendFunction)
    (hf : front ∈ m.funcs)
    (hbad : rejected_shape (build_args_map front.captured_names front.args)
      front.body = true) :
    convert_frontend_ir_to_backend_ir m = none := by
  have hnone : convert_function front = none := by
    unfold convert_function
    dsimp only
    rw [rejected_lower_none _ _ _ hbad]
    rfl
  unfold convert_frontend_ir_to_backend_ir
  rw [convert_functions_none m.funcs front hf hnone]
  rfl

/-- Witness for C4's amended claim: a module with a pattern-match body
aborts the conversion. -/
theorem c4_unsupported_shapes_witness :
    convert_frontend_ir_to_backend_ir
      ⟨[⟨"bad2", [], [], [], .Match ⟨0⟩ (.Empty ⟨0⟩)⟩]⟩ = none :=
  c4_unsupported_shapes _ ⟨"bad2", [], [], [], .Match ⟨0⟩ (.Empty ⟨0⟩)⟩
    (by simp) (by rfl)

/-- C5 counterexample: emitting a `Call{knownArity=false}` hits the
`todo!()` of codegen.rs line 614: `generate_code` panics (modelled
`none`); its return type has no error channel, so no distinct catchable
error value identifying the combination is surfaced. -/
theorem c5_counterexample :
    generate_code (fun f => f)
      ⟨[⟨"f", 0, [⟨some 0, 0, 0, .Call false, [.Function "g"]⟩]⟩]⟩ = none := by
  rfl

/-- C5 amended: for every instruction list containing a
`Call{knownArity=false}` or an `ApplyPartial` instruction, the emitter
panics via `todo!()` (codegen.rs lines 477 and 614), modelled as `none`:
compilation of the whole module aborts and no error value is returned.
The statement holds for every register allocator that leaves the
instruction sequence itself unchanged (the contract of section 4.3). -/
theorem c5_unimplemented_call_paths (alloc : IrFunction → IrFunction)
    (hpres : ∀ f, ((alloc f).ssas.map (fun s => s.instr)) =
      f.ssas.map (fun s => s.instr))
    (m : IrModule) (func : IrFunction) (ssa : IrSsa)
    (hfm : func ∈ m.funcs) (hsm : ssa ∈ func.ssas)
    (hbad : ssa.instr = .Apply ∨ ssa.instr = .Call false) :
    generate_code alloc m = none := by
  unfold generate_code
  exact foldlM_none_of_mem _ m.funcs _ func hfm
    (compile_function_none alloc func (hpres func) ssa hsm hbad)

/-- Witness for C5's amended claim: a module containing an `ApplyPartial`
instruction aborts code generation under the identity allocator. -/
theorem c5_unimplemented_call_paths_witness :
    generate_code (fun f => f)
      ⟨[⟨"f", 0, [⟨some 0, 0, 0, .Apply, [.Function "g"]⟩]⟩]⟩ = none :=
  c5_unimplemented_call_paths (fun f => f) (fun _ => rfl) _
    ⟨"f", 0, [⟨some 0, 0, 0, .Apply, [.Function "g"]⟩]⟩
    ⟨some 0, 0, 0, .Apply, [.Function "g"]⟩ (by simp) (by simp) (Or.inl rfl)

/-! ## Structure of the lowering output (claims C6 and C8) -/

lemma appends_fresh_refl (fn : IrFunction) : appends_fresh fn fn :=
  ⟨rfl, rfl, [], by simp, by simp⟩

lemma appends_fresh_trans {a b c : IrFunction}
    (h1 : appends_fresh a b) (h2 : appends_fresh b c) : appends_fresh a c := by
  obtain ⟨hn1, ha1, t1, hs1, hf1⟩ := h1
  obtain ⟨hn2, ha2, t2, hs2, hf2⟩ := h2
  refine ⟨hn2.trans hn1, ha2.trans ha1, t1 ++ t2, by rw [hs2, hs1, List.append_assoc], ?_⟩
  intro s hs
  rcases List.mem_append.mp hs with h | h
  · exact hf1 s h
  · exact hf2 s h

lemma appends_fresh_push {a b : IrFunction} (s : IrSsa)
    (h : appends_fresh a b) (hlt : s.local_lifetime = 0)
    (hin : s.instr ≠ .Ret) : appends_fresh a (b.push_ssa s) := by
  obtain ⟨hn, ha, t, hs, hf⟩ := h
  refine ⟨hn, ha, t ++ [s], ?_, ?_⟩
  · simp [IrFunction.push_ssa, hs]
  · intro u hu
    rcases List.mem_append.mp hu with h | h
    · exact hf u h
    · rw [List.mem_singleton.mp h]
      exact ⟨hlt, hin⟩

lemma lower_atom_appends (am : List (String × Nat)) (func : IrFunction)
    (e : SExpr) (r : IrFunction × Option Nat)
    (h : lower_atom am func e = some r) : appends_fresh func r.1 := by
  cases e <;> simp only [lower_atom] at h
  case Symbol m s =>
    cases hl : args_map_get am s with
    | none => rw [hl] at h; cases h
    | some a =>
      rw [hl] at h
      simp only [Option.some.injEq] at h
      rw [← h]
      exact appends_fresh_push _ (appends_fresh_refl func) rfl (by simp)
  case Function m f =>
    simp only [Option.some.injEq] at h
    rw [← h]
    exact appends_fresh_push _ (appends_fresh_refl func) rfl (by simp)
  all_goals cases h

lemma conversion_appends (am : List (String × Nat)) (func : IrFunction)
    (e : SExpr) :
    ∀ r, conversion_helper am func e = some r → appends_fresh func r.1 := by
  refine conversion_helper.induct am
    (fun func e => ∀ r, conversion_helper am func e = some r →
      appends_fresh func r.1)
    (fun func m f a => ∀ r, lower_chain_step am func m f a = some r →
      appends_fresh func r.1)
    (fun func e => ∀ r, lower_callee am func e = some r →
      appends_fresh func r.1)
    ?_ ?_ ?_ ?_ ?_ func e
  · -- conversion_helper, Application arm
    intro func m f a ih r h
    simp only [conversion_helper] at h
    cases hstep : lower_chain_step am func m f a with
    | none => rw [hstep] at h; cases h
    | some q =>
      obtain ⟨func1, fl, args, la⟩ := q
      rw [hstep] at h
      simp only [Option.bind_eq_bind, Option.some_bind] at h
      have hq := ih _ hstep
      by_cases hm : m.arity = 0
      · rw [if_pos hm] at h
        simp only [Option.pure_def, Option.some.injEq] at h
        rw [← h]
        exact hq
      · rw [if_neg hm] at h
        simp only [Option.pure_def, Option.some.injEq] at h
        rw [← h]
        exact appends_fresh_push _ hq rfl (by simp)
  · -- conversion_helper, non-Application arm
    intro func e hne r h
    have ha : conversion_helper am func e = lower_atom am func e := by
      cases e <;> first
        | (exact absurd rfl (by intro hc; exact hne _ _ _ hc))
        | simp [conversion_helper]
    rw [ha] at h
    exact lower_atom_appends am func e r h
  · -- lower_chain_step
    intro func m f a ih_f ih_a r h
    simp only [lower_chain_step] at h
    cases hc : lower_callee am func f with
    | none => rw [hc] at h; cases h
    | some q =>
      obtain ⟨func1, fl, pend, la⟩ := q
      rw [hc] at h
      simp only [Option.bind_eq_bind, Option.some_bind] at h
      cases ha : conversion_helper am func1 a with
      | none => rw [ha] at h; cases h
      | some q2 =>
        obtain ⟨func2, al⟩ := q2
        rw [ha] at h
        simp only [Option.some_bind] at h
        cases al with
        | none => simp at h
        | some av =>
          simp only [Option.some_bind] at h
          have h1 := ih_f _ hc
          have h2 := ih_a func1 _ ha
          by_cases hm : m.arity = 0
          · rw [if_pos hm] at h
            simp only [Option.pure_def, Option.some.injEq] at h
            rw [← h]
            exact appends_fresh_push _ (appends_fresh_trans h1 h2) rfl (by simp)
          · rw [if_neg hm] at h
            simp only [Option.pure_def, Option.some.injEq] at h
            rw [← h]
            exact appends_fresh_trans h1 h2
  · -- lower_callee, Application arm
    intro func m f a ih r h
    simp only [lower_callee] at h
    exact ih r h
  · -- lower_callee, non-Application arm
    intro func e hne r h
    have ha : lower_callee am func e = (do
        let (func2, l) ← lower_atom am func e
        let l2 ← l
        pure (func2, l2, ([] : List Nat), e.get_metadata.arity)) := by
      cases e <;> first
        | (exact absurd rfl (by intro hc; exact hne _ _ _ hc))
        | simp [lower_callee]
    rw [ha] at h
    cases hl : lower_atom am func e with
    | none => rw [hl] at h; cases h
    | some q =>
      obtain ⟨func2, lo⟩ := q
      rw [hl] at h
      simp only [Option.bind_eq_bind, Option.some_bind] at h
      cases lo with
      | none => simp at h
      | some lv =>
        simp only [Option.some_bind, Option.pure_def, Option.some.injEq] at h
        rw [← h]
        exact lower_atom_appends am func e _ hl

lemma convert_function_structure (front : FrontendFunction) (f : IrFunction)
    (h : convert_function front = some f) :
    ∃ body : List IrSsa,
      (∀ s ∈ body, s.local_lifetime = 0 ∧ s.instr ≠ .Ret) ∧
      f = calculate_lifetimes
        ⟨front.name, front.args.length + front.captured.length,
          body ++ [⟨none, 0, 0, .Ret,
            match IrFunction.get_last_local.go body.reverse with
            | some l => [.Local l]
            | none => []⟩]⟩ := by
  unfold convert_function at h
  dsimp only at h
  cases hc : conversion_helper (build_args_map front.captured_names front.args)
      ⟨front.name, front.args.length + front.captured.length, []⟩ front.body with
  | none => rw [hc] at h; cases h
  | some q =>
    obtain ⟨f1, lo⟩ := q
    rw [hc] at h
    simp only [Option.bind_eq_bind, Option.some_bind, Option.pure_def,
      Option.some.injEq] at h
    obtain ⟨hname, hargc, tail, hssas, htail⟩ :=
      conversion_appends _ _ _ _ hc
    simp only [List.nil_append] at hssas
    refine ⟨f1.ssas, by rw [hssas]; exact htail, ?_⟩
    rw [← h]
    have hf1 : f1 = ⟨front.name, front.args.length + front.captured.length,
        f1.ssas⟩ := by
      obtain ⟨n1, a1, s1⟩ := f1
      simp only at hname hargc
      rw [hname, hargc]
    rw [IrFunction.push_ssa, IrFunction.get_last_local]
    rw [hf1]

/-! ## Lifetime-analysis characterization (claim C6) -/

lemma lifetime_scan_eq (l : Nat) :
    ∀ (rest : List IrSsa) (i j cur : Nat),
      lifetime_scan l i j cur rest =
        match last_ref_idx l rest with
        | none => cur
        | some k => (j + k) - i + 1
  | [], i, j, cur => rfl
  | s :: rest, i, j, cur => by
    simp only [lifetime_scan, last_ref_idx]
    rw [lifetime_scan_eq l rest]
    cases hk : last_ref_idx l rest with
    | some k =>
      simp only []
      have : j + 1 + k = j + (k + 1) := by omega
      rw [this]
    | none =>
      by_cases hr : refs_local s l <;> simp [hr]

lemma calc_go_length : ∀ (ssas : List IrSsa) (i : Nat),
    (calculate_lifetimes_go i ssas).length = ssas.length
  | [], _ => rfl
  | ssa :: rest, i => by
    cases h : ssa.local_id <;>
      simp [calculate_lifetimes_go, h, calc_go_length rest]

lemma calc_go_get? :
    ∀ (ssas : List IrSsa) (i p : Nat),
      (calculate_lifetimes_go i ssas).get? p =
        (ssas.get? p).map (fun s =>
          match s.local_id with
          | none => s
          | some l =>
            { s with local_lifetime :=
                match last_ref_idx l (ssas.drop (p + 1)) with
                | none => s.local_lifetime
                | some k => k + 2 })
  | [], i, p => by simp [calculate_lifetimes_go]
  | ssa :: rest, i, p => by
    cases hid : ssa.local_id with
    | none =>
      cases p with
      | zero => simp [calculate_lifetimes_go, hid]
      | succ p =>
        simp only [calculate_lifetimes_go, hid, List.get?_cons_succ,
          List.drop_succ_cons]
        exact calc_go_get? rest i p
    | some l =>
      cases p with
      | zero =>
        simp only [calculate_lifetimes_go, hid, List.get?_cons_zero,
          List.drop_succ_cons, List.drop_zero, Option.map_some']
        rw [lifetime_scan_eq]
        cases hk : last_ref_idx l rest with
        | none => simp [hid, hk]
        | some k =>
          simp [hid, hk]
          omega
      | succ p =>
        simp only [calculate_lifetimes_go, hid, List.get?_cons_succ,
          List.drop_succ_cons]
        exact calc_go_get? rest (i + 1) p

lemma last_ref_idx_eq_none (l : Nat) :
    ∀ (rest : List IrSsa), last_ref_idx l rest = none →
      ∀ k t, rest.get? k = some t → refs_local t l = false
  | [], _, k, t, ht => by simp at ht
  | s :: rest, h, k, t, ht => by
    simp only [last_ref_idx] at h
    cases hk : last_ref_idx l rest with
    | some k2 => rw [hk] at h; cases h
    | none =>
      rw [hk] at h
      by_cases hr : refs_local s l
      · rw [if_pos hr] at h; cases h
      · cases k with
        | zero =>
          simp only [List.get?_cons_zero, Option.some.injEq] at ht
          rw [← ht]
          exact Bool.eq_false_iff.mpr hr
        | succ k =>
          exact last_ref_idx_eq_none l rest hk k t (by simpa using ht)

lemma last_ref_idx_eq_none_of (l : Nat) :
    ∀ (rest : List IrSsa),
      (∀ k t, rest.get? k = some t → refs_local t l = false) →
      last_ref_idx l rest = none
  | [], _ => rfl
  | s :: rest, h => by
    simp only [last_ref_idx]
    rw [last_ref_idx_eq_none_of l rest (fun k t ht => h (k + 1) t (by simpa using ht))]
    rw [if_neg (by rw [h 0 s (by simp)]; simp)]

lemma last_ref_idx_eq_some_of (l : Nat) :
    ∀ (rest : List IrSsa) (k : Nat) (t : IrSsa),
      rest.get? k = some t → refs_local t l = true →
      (∀ k2 t2, k < k2 → rest.get? k2 = some t2 → refs_local t2 l = false) →
      last_ref_idx l rest = some k
  | [], k, t, ht, _, _ => by simp at ht
  | s :: rest, k, t, ht, href, hafter => by
    simp only [last_ref_idx]
    cases k with
    | zero =>
      have hnone : last_ref_idx l rest = none :=
        last_ref_idx_eq_none_of l rest
          (fun k2 t2 ht2 => hafter (k2 + 1) t2 (by omega) (by simpa using ht2))
      rw [hnone]
      simp only [List.get?_cons_zero, Option.some.injEq] at ht
      rw [if_pos (by rw [ht]; exact href)]
    | succ k =>
      have hsome : last_ref_idx l rest = some k :=
        last_ref_idx_eq_some_of l rest k t (by simpa using ht) href
          (fun k2 t2 hlt ht2 => hafter (k2 + 1) t2 (by omega) (by simpa using ht2))
      rw [hsome]

lemma convert_functions_mem :
    ∀ (l : List FrontendFunction) (l2 : List IrFunction),
      convert_functions l = some l2 →
      ∀ f ∈ l2, ∃ front ∈ l, convert_function front = some f
  | [], l2, h, f, hf => by
    simp only [convert_functions, Option.some.injEq] at h
    rw [← h] at hf
    simp at hf
  | x :: rest, l2, h, f, hf => by
    simp only [convert_functions] at h
    cases hx : convert_function x with
    | none => rw [hx] at h; cases h
    | some fx =>
      rw [hx] at h
      simp only [Option.bind_eq_bind, Option.some_bind] at h
      cases hr : convert_functions rest with
      | none => rw [hr] at h; cases h
      | some l3 =>
        rw [hr] at h
        simp only [Option.some_bind, Option.pure_def, Option.some.injEq] at h
        rw [← h] at hf
        rcases List.mem_cons.mp hf with rfl | hf2
        · exact ⟨x, by simp, hx⟩
        · rcases convert_functions_mem rest l3 hr f hf2 with ⟨front, hm2, hc⟩
          exact ⟨front, by simp [hm2], hc⟩

lemma convert_module_mem (m : FrontendModule) (out : IrModule)
    (hm : convert_frontend_ir_to_backend_ir m = some out)
    (f : IrFunction) (hf : f ∈ out.funcs) :
    ∃ front ∈ m.funcs, convert_function front = some f := by
  unfold convert_frontend_ir_to_backend_ir at hm
  cases hc : convert_functions m.funcs with
  | none => rw [hc] at hm; cases hm
  | some l =>
    rw [hc] at hm
    simp only [Option.bind_eq_bind, Option.some_bind, Option.pure_def,
      Option.some.injEq] at hm
    rw [← hm] at hf
    exact convert_functions_mem m.funcs l hc f hf

lemma calc_characterization (g : List IrSsa)
    (hzero : ∀ s ∈ g, s.local_lifetime = 0)
    (p : Nat) (s : IrSsa) (l : Nat)
    (hp : (calculate_lifetimes_go 0 g).get? p = some s)
    (hl : s.local_id = some l) :
    (s.local_lifetime = 0 ↔
      ∀ q t, p < q → (calculate_lifetimes_go 0 g).get? q = some t →
        refs_local t l = false) ∧
    (∀ q t, p < q → (calculate_lifetimes_go 0 g).get? q = some t →
      refs_local t l = true →
      (∀ q2 t2, q < q2 → (calculate_lifetimes_go 0 g).get? q2 = some t2 →
        refs_local t2 l = false) →
      s.local_lifetime = (q - p) + 1) := by
  rw [calc_go_get?] at hp
  cases hg : g.get? p with
  | none => rw [hg] at hp; cases hp
  | some s0 =>
    rw [hg] at hp
    simp only [Option.map_some', Option.some.injEq] at hp
    have hz0 : s0.local_lifetime = 0 := hzero s0 (List.get?_mem hg)
    cases h0 : s0.local_id with
    | none =>
      rw [h0] at hp
      rw [← hp] at hl
      rw [h0] at hl
      cases hl
    | some l0 =>
      rw [h0] at hp
      dsimp only at hp
      have hll : l = l0 := by
        rw [← hp] at hl
        have := hl
        simpa using this.symm
      subst hll
      -- translation of references between the analyzed and raw lists
      have htrans : ∀ (q : Nat) (t : IrSsa),
          (calculate_lifetimes_go 0 g).get? q = some t →
          ∃ t0, g.get? q = some t0 ∧ refs_local t l = refs_local t0 l := by
        intro q t hq
        rw [calc_go_get?] at hq
        cases hgq : g.get? q with
        | none => rw [hgq] at hq; cases hq
        | some t0 =>
          rw [hgq] at hq
          simp only [Option.map_some', Option.some.injEq] at hq
          refine ⟨t0, rfl, ?_⟩
          rw [← hq]
          cases t0.local_id <;> rfl
      have htrans2 : ∀ (q : Nat) (t0 : IrSsa), g.get? q = some t0 →
          ∃ t, (calculate_lifetimes_go 0 g).get? q = some t ∧
            refs_local t l = refs_local t0 l := by
        intro q t0 hq
        have := calc_go_get? g 0 q
        rw [hq] at this
        simp only [Option.map_some'] at this
        refine ⟨_, this, ?_⟩
        cases t0.local_id <;> rfl
      constructor
      · constructor
        · intro hzlt q t hlt hqt
          by_contra href
          rw [Bool.not_eq_false] at href
          rcases htrans q t hqt with ⟨t0, hgq, hrr⟩
          have hgetk : (g.drop (p + 1)).get? (q - p - 1) = some t0 := by
            rw [List.get?_drop]
            rw [show p + 1 + (q - p - 1) = q by omega]
            exact hgq
          cases hlri : last_ref_idx l (g.drop (p + 1)) with
          | none =>
            have := last_ref_idx_eq_none l _ hlri (q - p - 1) t0 hgetk
            rw [hrr] at href
            rw [this] at href
            cases href
          | some k2 =>
            have hval : s.local_lifetime = k2 + 2 := by
              rw [← hp]
              simp [hlri]
            rw [hval] at hzlt
            cases hzlt
        · intro hnone
          have hlri : last_ref_idx l (g.drop (p + 1)) = none := by
            apply last_ref_idx_eq_none_of
            intro k t0 hk
            rw [List.get?_drop] at hk
            rcases htrans2 (p + 1 + k) t0 hk with ⟨t, ht, hrr⟩
            rw [← hrr]
            exact hnone (p + 1 + k) t (by omega) ht
          rw [← hp]
          simp [hlri, hz0]
      · intro q t hlt hqt href hafter
        rcases htrans q t hqt with ⟨t0, hgq, hrr⟩
        have hgetk : (g.drop (p + 1)).get? (q - p - 1) = some t0 := by
          rw [List.get?_drop]
          rw [show p + 1 + (q - p - 1) = q by omega]
          exact hgq
        have hlri : last_ref_idx l (g.drop (p + 1)) = some (q - p - 1) := by
          apply last_ref_idx_eq_some_of l _ _ t0 hgetk (by rw [← hrr]; exact href)
          intro k2 t2 hk2 ht2
          rw [List.get?_drop] at ht2
          rcases htrans2 (p + 1 + k2) t2 ht2 with ⟨t3, ht3, hrr3⟩
          rw [← hrr3]
          exact hafter (p + 1 + k2) t3 (by omega) ht3
        rw [← hp]
        simp [hlri]
        omega

/-- C6: after lifetime analysis, a value-producing instruction at
position `p` of a lowered function has lifetime 0 iff no later
instruction of the same function references its value as an operand, and
otherwise its lifetime is `(position of the last later referencing
instruction - p) + 1`. -/
theorem c6_lifetime_analysis (m : FrontendModule) (out : IrModule)
    (hm : convert_frontend_ir_to_backend_ir m = some out)
    (f : IrFunction) (hf : f ∈ out.funcs)
    (p : Nat) (s : IrSsa) (l : Nat)
    (hp : f.ssas.get? p = some s) (hl : s.local_id = some l) :
    (s.local_lifetime = 0 ↔
      ∀ q t, p < q → f.ssas.get? q = some t → refs_local t l = false) ∧
    (∀ q t, p < q → f.ssas.get? q = some t → refs_local t l = true →
      (∀ q2 t2, q < q2 → f.ssas.get? q2 = some t2 → refs_local t2 l = false) →
      s.local_lifetime = (q - p) + 1) := by
  obtain ⟨front, hfm, hcf⟩ := convert_module_mem m out hm f hf
  obtain ⟨body, hbody, hfeq⟩ := convert_function_structure front f hcf
  have hssas : f.ssas = calculate_lifetimes_go 0 (body ++ [⟨none, 0, 0, .Ret,
      match IrFunction.get_last_local.go body.reverse with
      | some l2 => [.Local l2]
      | none => []⟩]) := by
    rw [hfeq]
    rfl
  rw [hssas] at hp ⊢
  apply calc_characterization _ ?_ p s l hp hl
  intro u hu
  rcases List.mem_append.mp hu with h | h
  · exact (hbody u h).1
  · rw [List.mem_singleton.mp h]

/-- Witness for C6: in the lowered function for `f x = g x` the first
instruction (`load g`, producing local 0) is last referenced by the call
at position 2, and its computed lifetime is `(2 - 0) + 1 = 3`. -/
theorem c6_lifetime_analysis_witness :
    (⟨some 0, 3, 0, .Load, [.Function "g"]⟩ : IrSsa).local_lifetime =
      (2 - 0) + 1 := by
  have hm : convert_frontend_ir_to_backend_ir
      ⟨[⟨"f", ["x"], [], [],
        .Application ⟨0⟩ (.Function ⟨1⟩ "g") (.Symbol ⟨0⟩ "x")⟩]⟩ =
      some ⟨[⟨"f", 1,
        [⟨some 0, 3, 0, .Load, [.Function "g"]⟩,
         ⟨some 1, 2, 0, .Load, [.Argument 0]⟩,
         ⟨some 2, 2, 0, .Call true, [.Local 0, .Local 1]⟩,
         ⟨none, 0, 0, .Ret, [.Local 2]⟩]⟩]⟩ := by
    unfold convert_frontend_ir_to_backend_ir convert_functions convert_function
    simp [conversion_helper, lower_chain_step, lower_callee, lower_atom,
      build_args_map, args_map_get, IrFunction.push_ssa,
      IrFunction.get_next_local, IrFunction.get_next_local.go,
      IrFunction.get_last_local, IrFunction.get_last_local.go,
      calculate_lifetimes, calculate_lifetimes_go, lifetime_scan, refs_local,
      SExpr.get_metadata]
    rfl
  have h := c6_lifetime_analysis _ _ hm
    ⟨"f", 1,
      [⟨some 0, 3, 0, .Load, [.Function "g"]⟩,
       ⟨some 1, 2, 0, .Load, [.Argument 0]⟩,
       ⟨some 2, 2, 0, .Call true, [.Local 0, .Local 1]⟩,
       ⟨none, 0, 0, .Ret, [.Local 2]⟩]⟩
    (by simp) 0 ⟨some 0, 3, 0, .Load, [.Function "g"]⟩ 0 (by rfl) (by rfl)
  refine h.2 2 ⟨some 2, 2, 0, .Call true, [.Local 0, .Local 1]⟩
    (by omega) (by rfl) (by rfl) ?_
  intro q2 t2 hq2 ht2
  match q2, hq2 with
  | 3, _ =>
    simp only [List.get?_cons_succ, List.get?_cons_zero, Option.some.injEq] at ht2
    rw [← ht2]
    rfl
  | (n + 4), _ =>
    simp only [List.get?_cons_succ, List.get?_nil] at ht2
    cases ht2

lemma list_take_last {α : Type} (l : List α) (n : Nat) (x : α)
    (hlen : l.length = n + 1) (hx : l.get? n = some x) :
    l = l.take n ++ [x] := by
  have hdrop : l.drop n = [x] := by
    have hl2 : (l.drop n).length = 1 := by
      rw [List.length_drop]
      omega
    have h0 : (l.drop n).get? 0 = some x := by
      rw [List.get?_drop]
      simpa using hx
    rcases hd : l.drop n with _ | ⟨y, ys⟩
    · rw [hd] at hl2
      simp at hl2
    · rw [hd] at hl2 h0
      simp only [List.length_cons, List.get?_cons_zero, Option.some.injEq] at hl2 h0
      have hys : ys = [] := List.length_eq_zero.mp (by omega)
      rw [hys, h0]
  conv_lhs => rw [← List.take_append_drop n l]
  rw [hdrop]

lemma get_last_local_go_congr :
    ∀ (l1 l2 : List IrSsa),
      l1.map (fun s => s.local_id) = l2.map (fun s => s.local_id) →
      IrFunction.get_last_local.go l1 = IrFunction.get_last_local.go l2
  | [], [], _ => rfl
  | [], b :: l2, h => by simp at h
  | a :: l1, [], h => by simp at h
  | a :: l1, b :: l2, h => by
    simp only [List.map_cons, List.cons.injEq] at h
    show (match a.local_id with
          | some l => some l
          | none => IrFunction.get_last_local.go l1) =
        (match b.local_id with
          | some l => some l
          | none => IrFunction.get_last_local.go l2)
    rw [h.1]
    cases b.local_id with
    | some l => rfl
    | none => exact get_last_local_go_congr l1 l2 h.2

/-- C8: every function produced by lowering ends in exactly one `Ret`: its
instruction list splits as a `Ret`-free body followed by a single final
`Ret`, whose operand list is `[Local l]` for `l` the last produced value
id of the body (`get_last_local`), or empty when the body produced no
value. -/
theorem c8_single_return (m : FrontendModule) (out : IrModule)
    (hm : convert_frontend_ir_to_backend_ir m = some out)
    (f : IrFunction) (hf : f ∈ out.funcs) :
    ∃ body ret, f.ssas = body ++ [ret] ∧
      (∀ s ∈ body, s.instr ≠ .Ret) ∧
      ret.instr = .Ret ∧
      ret.args = (match IrFunction.get_last_local ⟨f.name, f.argc, body⟩ with
        | some l => [IrArgument.Local l]
        | none => []) := by
  obtain ⟨front, hfm, hcf⟩ := convert_module_mem m out hm f hf
  obtain ⟨body, hbody, hfeq⟩ := convert_function_structure front f hcf
  have hssas : f.ssas = calculate_lifetimes_go 0 (body ++ [⟨none, 0, 0, .Ret,
      match IrFunction.get_last_local.go body.reverse with
      | some l2 => [.Local l2]
      | none => []⟩]) := by
    rw [hfeq]
    rfl
  have hlen : f.ssas.length = body.length + 1 := by
    rw [hssas, calc_go_length]
    simp
  have hn : f.ssas.get? body.length = some ⟨none, 0, 0, .Ret,
      match IrFunction.get_last_local.go body.reverse with
      | some l2 => [.Local l2]
      | none => []⟩ := by
    rw [hssas, calc_go_get?, List.get?_concat_length]
    rfl
  have hdecomp := list_take_last f.ssas body.length _ hlen hn
  refine ⟨f.ssas.take body.length, _, hdecomp, ?_, rfl, ?_⟩
  · intro s hs
    rcases List.get?_of_mem hs with ⟨p, hp⟩
    have hplt : p < body.length := by
      have h1 := (List.get?_eq_some.mp hp).1
      rw [List.length_take, hlen] at h1
      omega
    have hfp : f.ssas.get? p = some s := by
      rw [← List.get?_take hplt]
      exact hp
    rw [hssas, calc_go_get?] at hfp
    have hbp2 : (body ++ [(⟨none, 0, 0, .Ret,
        match IrFunction.get_last_local.go body.reverse with
        | some l2 => [.Local l2]
        | none => []⟩ : IrSsa)]).get? p = body.get? p :=
      List.get?_append hplt
    rw [hbp2] at hfp
    cases hbp : body.get? p with
    | none => rw [hbp] at hfp; cases hfp
    | some s0 =>
      rw [hbp] at hfp
      simp only [Option.map_some', Option.some.injEq] at hfp
      have hinstr : s.instr = s0.instr := by
        rw [← hfp]
        cases s0.local_id <;> rfl
      rw [hinstr]
      exact (hbody s0 (List.get?_mem hbp)).2
  · have hmapeq : (f.ssas.take body.length).map (fun s => s.local_id) =
        body.map (fun s => s.local_id) := by
      apply List.ext
      intro p
      rw [List.get?_map, List.get?_map]
      by_cases hplt : p < body.length
      · rw [List.get?_take hplt, hssas, calc_go_get?]
        have hbp2 : (body ++ [(⟨none, 0, 0, .Ret,
            match IrFunction.get_last_local.go body.reverse with
            | some l2 => [.Local l2]
            | none => []⟩ : IrSsa)]).get? p = body.get? p :=
          List.get?_append hplt
        rw [hbp2]
        cases hbp : body.get? p with
        | none => rfl
        | some s0 =>
          simp only [Option.map_some']
          cases h0 : s0.local_id <;> simp [h0]
      · rw [List.get?_eq_none.mpr (show (f.ssas.take body.length).length ≤ p by
            simp only [List.length_take]; omega),
          List.get?_eq_none.mpr (show body.length ≤ p by omega)]
    have hcong : IrFunction.get_last_local.go
        (f.ssas.take body.length).reverse =
        IrFunction.get_last_local.go body.reverse := by
      apply get_last_local_go_congr
      rw [List.map_reverse, List.map_reverse, hmapeq]
    show _ = (match IrFunction.get_last_local
        ⟨f.name, f.argc, f.ssas.take body.length⟩ with
      | some l => [IrArgument.Local l]
      | none => [])
    rw [IrFunction.get_last_local]
    rw [hcong]

/-- Witness for C8: the lowered function for `f x = g x` splits into a
`Ret`-free body and one final `Ret` referencing the last produced value. -/
theorem c8_single_return_witness :
    ∃ body ret,
      [(⟨some 0, 3, 0, .Load, [.Function "g"]⟩ : IrSsa),
       ⟨some 1, 2, 0, .Load, [.Argument 0]⟩,
       ⟨some 2, 2, 0, .Call true, [.Local 0, .Local 1]⟩,
       ⟨none, 0, 0, .Ret, [.Local 2]⟩] = body ++ [ret] ∧
      (∀ s ∈ body, s.instr ≠ .Ret) ∧ ret.instr = .Ret ∧
      ret.args = (match IrFunction.get_last_local ⟨"f", 1, body⟩ with
        | some l => [IrArgument.Local l]
        | none => []) := by
  have hm : convert_frontend_ir_to_backend_ir
      ⟨[⟨"f", ["x"], [], [],
        .Application ⟨0⟩ (.Function ⟨1⟩ "g") (.Symbol ⟨0⟩ "x")⟩]⟩ =
      some ⟨[⟨"f", 1,
        [⟨some 0, 3, 0, .Load, [.Function "g"]⟩,
         ⟨some 1, 2, 0, .Load, [.Argument 0]⟩,
         ⟨some 2, 2, 0, .Call true, [.Local 0, .Local 1]⟩,
         ⟨none, 0, 0, .Ret, [.Local 2]⟩]⟩]⟩ := by
    unfold convert_frontend_ir_to_backend_ir convert_functions convert_function
    simp [conversion_helper, lower_chain_step, lower_callee, lower_atom,
      build_args_map, args_map_get, IrFunction.push_ssa,
      IrFunction.get_next_local, IrFunction.get_next_local.go,
      IrFunction.get_last_local, IrFunction.get_last_local.go,
      calculate_lifetimes, calculate_lifetimes_go, lifetime_scan, refs_local,
      SExpr.get_metadata]
    rfl
  exact c8_single_return _ _ hm
    ⟨"f", 1,
      [⟨some 0, 3, 0, .Load, [.Function "g"]⟩,
       ⟨some 1, 2, 0, .Load, [.Argument 0]⟩,
       ⟨some 2, 2, 0, .Call true, [.Local 0, .Local 1]⟩,
       ⟨none, 0, 0, .Ret, [.Local 2]⟩]⟩ (by simp)

/-! ## Known-arity call flags of application chains (claim C9) -/

lemma chain_call_flags_snoc (r : Nat) :
    ∀ (rs : List Nat) (la : Nat),
      chain_call_flags la (rs ++ [r]) =
        chain_call_flags la rs ++
          (if r = 0 then [decide (rs.getLastD la ≠ 0)] else [])
  | [], la => by
    by_cases hr : r = 0 <;> simp [chain_call_flags, hr]
  | r0 :: rs, la => by
    simp only [List.cons_append, chain_call_flags, List.getLastD_cons]
    by_cases h0 : r0 = 0
    · subst h0
      simp [chain_call_flags_snoc r rs 0]
    · simp [h0, chain_call_flags_snoc r rs r0]

lemma chain_spec_flags_eq :
    ∀ (n a c : Nat), (a = 0 ↔ c = 0) →
      chain_call_flags a (residuals a n) = spec_call_flags c (residuals a n)
  | 0, a, c, _ => rfl
  | n + 1, a, c, h => by
    simp only [residuals]
    by_cases ha : a - 1 = 0
    · rw [ha]
      have hhead : decide (a ≠ 0) = decide (c ≠ 0) := by
        by_cases haz : a = 0
        · simp [haz, h.mp haz]
        · have hcz : ¬ c = 0 := fun hc => haz (h.mpr hc)
          simp [haz, hcz]
      have htail := chain_spec_flags_eq n 0 0 Iff.rfl
      simp [chain_call_flags, spec_call_flags, hhead, htail]
    · simp only [chain_call_flags, spec_call_flags, if_neg ha]
      exact chain_spec_flags_eq n (a - 1) c (by omega)

lemma atomic_lower (am : List (String × Nat)) (e : SExpr)
    (h : is_atomic_ok am e) (func : IrFunction) :
    ∃ op, conversion_helper am func e =
      some (func.push_ssa ⟨some func.get_next_local, 0, 0, .Load, [op]⟩,
        some func.get_next_local) := by
  rcases h with ⟨m2, s2, a, rfl, hl⟩ | ⟨m2, fn, rfl⟩
  · exact ⟨.Argument a, by simp [conversion_helper, lower_atom, hl]⟩
  · exact ⟨.Function fn, by simp [conversion_helper, lower_atom]⟩

lemma lower_callee_atom (am : List (String × Nat)) (e : SExpr)
    (h : is_atomic_ok am e) (func : IrFunction) :
    ∃ op, lower_callee am func e =
      some (func.push_ssa ⟨some func.get_next_local, 0, 0, .Load, [op]⟩,
        func.get_next_local, [], e.get_metadata.arity) := by
  rcases h with ⟨m2, s2, a, rfl, hl⟩ | ⟨m2, fn, rfl⟩
  · exact ⟨.Argument a, by simp [lower_callee, lower_atom, hl, SExpr.get_metadata]⟩
  · exact ⟨.Function fn, by simp [lower_callee, lower_atom, SExpr.get_metadata]⟩

lemma call_flags_append : ∀ (xs ys : List IrSsa),
    call_flags (xs ++ ys) = call_flags xs ++ call_flags ys
  | [], ys => rfl
  | x :: xs, ys => by
    have hstep : ∀ (l : List IrSsa), call_flags (x :: l) =
        (match x.instr with
         | IrInstruction.Call b => b :: call_flags l
         | _ => call_flags l) := fun l => rfl
    rw [List.cons_append, hstep, hstep]
    cases hx : x.instr <;> simp [hx, call_flags_append xs ys]

lemma lower_callee_mk_chain (am : List (String × Nat)) (base : SExpr)
    (hbase : is_atomic_ok am base) :
    ∀ (layers : List (Nat × SExpr)) (func : IrFunction),
      (∀ p ∈ layers, is_atomic_ok am p.2) →
      ∃ func2 fl pend,
        lower_callee am func (mk_chain base layers) =
          some (func2, fl, pend,
            ((layers.map Prod.fst).reverse).getLastD base.get_metadata.arity) ∧
        ∃ tail, func2.ssas = func.ssas ++ tail ∧
          call_flags tail =
            chain_call_flags base.get_metadata.arity
              ((layers.map Prod.fst).reverse)
  | [], func, _ => by
    rcases lower_callee_atom am base hbase func with ⟨op, hop⟩
    refine ⟨func.push_ssa ⟨some func.get_next_local, 0, 0, .Load, [op]⟩,
      func.get_next_local, [], ?_,
      ⟨[⟨some func.get_next_local, 0, 0, .Load, [op]⟩],
        by simp [IrFunction.push_ssa], rfl⟩⟩
    simpa [mk_chain] using hop
  | l :: rest, func, hargs => by
    have hrest : ∀ p ∈ rest, is_atomic_ok am p.2 :=
      fun p hp => hargs p (by simp [hp])
    rcases lower_callee_mk_chain am base hbase rest func hrest with
      ⟨func2, fl, pend, heq, tail, htail, hflags⟩
    rcases atomic_lower am l.2 (hargs l (by simp)) func2 with ⟨op, hop⟩
    have hchain : mk_chain base (l :: rest) =
        .Application ⟨l.1⟩ (mk_chain base rest) l.2 := rfl
    rw [hchain]
    have hrs : ((l :: rest).map Prod.fst).reverse =
        (rest.map Prod.fst).reverse ++ [l.1] := by simp
    simp only [lower_callee, lower_chain_step]
    rw [heq]
    simp only [Option.bind_eq_bind, Option.some_bind]
    rw [hop]
    simp only [Option.some_bind]
    by_cases h0 : l.1 = 0
    · rw [if_pos h0]
      rw [hrs, List.getLastD_concat]
      refine ⟨_, _, _, rfl,
        tail ++ [⟨some func2.get_next_local, 0, 0, .Load, [op]⟩] ++
          [⟨some (func2.push_ssa
              ⟨some func2.get_next_local, 0, 0, .Load, [op]⟩).get_next_local,
            0, 0,
            .Call (decide ((rest.map Prod.fst).reverse.getLastD
              base.get_metadata.arity ≠ 0)),
            .Local fl :: List.map IrArgument.Local
              (pend ++ [func2.get_next_local])⟩], ?_, ?_⟩
      · simp [IrFunction.push_ssa, htail]
      · rw [call_flags_append, call_flags_append, hflags,
          chain_call_flags_snoc, if_pos h0]
        simp [call_flags]
    · rw [if_neg h0]
      rw [hrs, List.getLastD_concat]
      refine ⟨_, _, _, rfl,
        tail ++ [⟨some func2.get_next_local, 0, 0, .Load, [op]⟩], ?_, ?_⟩
      · simp [IrFunction.push_ssa, htail]
      · rw [call_flags_append, hflags, chain_call_flags_snoc, if_neg h0]
        simp [call_flags]

/-- C9: for an application chain with the canonical residual-arity
annotations (modelled from the spec, `residuals`), the lowering emits
`Call` instructions whose `known_arity` flags are exactly the spec's: a
call's flag is true iff its callee's own declared arity before any
arguments were applied was nonzero — the base callee's declared arity for
the first call of the chain, and 0 (a call result of unknown arity) for
every later call (`spec_call_flags`). -/
theorem c9_call_known_arity (am : List (String × Nat)) (base : SExpr)
    (layers : List (Nat × SExpr)) (func : IrFunction)
    (hbase : is_atomic_ok am base)
    (hargs : ∀ p ∈ layers, is_atomic_ok am p.2)
    (hwf : (layers.map Prod.fst).reverse =
      residuals base.get_metadata.arity layers.length) :
    ∃ r, conversion_helper am func (mk_chain base layers) = some r ∧
      call_flags (r.1.ssas.drop func.ssas.length) =
        spec_call_flags base.get_metadata.arity
          ((layers.map Prod.fst).reverse) := by
  have hmain : chain_call_flags base.get_metadata.arity
      ((layers.map Prod.fst).reverse) =
      spec_call_flags base.get_metadata.arity
        ((layers.map Prod.fst).reverse) := by
    rw [hwf]
    exact chain_spec_flags_eq layers.length _ _ Iff.rfl
  cases layers with
  | nil =>
    rcases atomic_lower am base hbase func with ⟨op, hop⟩
    refine ⟨_, hop, ?_⟩
    simp [IrFunction.push_ssa, call_flags, spec_call_flags]
  | cons l rest =>
    rcases lower_callee_mk_chain am base hbase (l :: rest) func hargs with
      ⟨func2, fl, pend, heq, tail, htail, hflags⟩
    have hchain : mk_chain base (l :: rest) =
        .Application ⟨l.1⟩ (mk_chain base rest) l.2 := rfl
    rw [hchain] at heq
    have hstep : lower_chain_step am func ⟨l.1⟩ (mk_chain base rest) l.2 =
        some (func2, fl, pend,
          ((l :: rest).map Prod.fst).reverse.getLastD
            base.get_metadata.arity) := by
      simpa [lower_callee] using heq
    rw [hchain]
    simp only [conversion_helper]
    rw [hstep]
    simp only [Option.bind_eq_bind, Option.some_bind]
    by_cases h0 : l.1 = 0
    · rw [if_pos h0]
      refine ⟨_, rfl, ?_⟩
      dsimp only
      rw [htail, List.drop_left, hflags, hmain]
    · rw [if_neg h0]
      refine ⟨_, rfl, ?_⟩
      dsimp only
      rw [IrFunction.push_ssa]
      dsimp only
      rw [htail, List.append_assoc, List.drop_left, call_flags_append,
        hflags]
      rw [show call_flags [⟨some func2.get_next_local, 0, 0, .Apply,
        .Local fl :: List.map IrArgument.Local pend⟩] = [] from rfl]
      rw [List.append_nil, hmain]

/-- Witness for C9: lowering `(g x) y` where `g` has declared arity 2 and
the layers carry residual arities 1 then 0 emits one `Call` with
`known_arity = true`. -/
theorem c9_call_known_arity_witness :
    ∃ r, conversion_helper [("x", 0), ("y", 1)] ⟨"h", 2, []⟩
        (mk_chain (.Function ⟨2⟩ "g")
          [(0, .Symbol ⟨0⟩ "y"), (1, .Symbol ⟨0⟩ "x")]) = some r ∧
      call_flags (r.1.ssas.drop (⟨"h", 2, []⟩ : IrFunction).ssas.length) =
        spec_call_flags (SExpr.Function ⟨2⟩ "g").get_metadata.arity
          (([((0 : Nat), SExpr.Symbol ⟨0⟩ "y"),
             ((1 : Nat), SExpr.Symbol ⟨0⟩ "x")].map Prod.fst).reverse) := by
  refine c9_call_known_arity _ _ _ _ (Or.inr ⟨⟨2⟩, "g", rfl⟩) ?_ (by rfl)
  intro p hp
  simp only [List.mem_cons, List.not_mem_nil, or_false] at hp
  rcases hp with rfl | rfl
  · exact Or.inl ⟨⟨0⟩, "y", 1, rfl, rfl⟩
  · exact Or.inl ⟨⟨0⟩, "x", 0, rfl, rfl⟩

end Closey
